import Mathlib

/-! Traffic-control queue disciplines: HHF (heavy-hitter filter) and TBF (token bucket filter).

A shallow embedding of `src/traffic-control/model/hhf-queue-disc.h` and of
`src/traffic-control/model/tbf-queue-disc.cc`, followed by the properties established about
them.

* `Hhf`: the constants and types of the header of the heavy-hitter filter queue disc. Its
  implementation file is not at hand; the operations are modelled from the specification.
* `Tbf`: the token bucket filter queue disc, `CheckConfig`, `InitializeParams`, `DoEnqueue`,
  `DoPeek` and `DoDequeue`, with 64-bit signed balances and 32-bit unsigned token fields.
-/

namespace Hhf

/-! ## Constants and types of `hhf-queue-disc.h` -/

/-- The number of counter arrays in the multistage filter F (`#define HHF_ARRAYS_CNT 4`). -/
def HHF_ARRAYS_CNT : Nat := 4

/-- The number of counters in each array of F (`#define HHF_ARRAYS_LEN 1024`). -/
def HHF_ARRAYS_LEN : Nat := 1024

/-- The number of masked bits of a counter array index (`#define HHF_BIT_MASK_LEN 10`). -/
def HHF_BIT_MASK_LEN : Nat := 10

/-- The bitmask of 10 bits (`#define HHF_BIT_MASK 0x3FF`). -/
def HHF_BIT_MASK : Nat := 0x3FF

/-- The number of buckets of the weighted DRR (`#define WDRR_BUCKET_CNT 2`). -/
def WDRR_BUCKET_CNT : Nat := 2

/-- The index of a 32-bit unsigned value `x` into one counter array: `x & HHF_BIT_MASK`. -/
def maskedIndex (x : Nat) : Nat := x &&& HHF_BIT_MASK

/-- The bucket types (`enum WdrrBucketIndex`). -/
inductive WdrrBucketIndex where
  | WDRR_BUCKET_FOR_HH
  | WDRR_BUCKET_FOR_NON_HH
  deriving DecidableEq

/-- The numeric value of a bucket index: `WDRR_BUCKET_FOR_HH = 0`,
`WDRR_BUCKET_FOR_NON_HH = 1`. -/
def WdrrBucketIndex.toNat : WdrrBucketIndex → Nat
  | .WDRR_BUCKET_FOR_HH => 0
  | .WDRR_BUCKET_FOR_NON_HH => 1

/-- The modes supported by the queue disc (`enum QueueDiscMode`). -/
inductive QueueDiscMode where
  | QUEUE_DISC_MODE_PACKETS
  | QUEUE_DISC_MODE_BYTES
  deriving DecidableEq

/-- A packet item: its size in bytes and its precomputed flow hash. -/
structure QueueDiscItem where
  size : Nat
  hash : Nat
  deriving DecidableEq

/-- The heavy-hitter per-flow state (`struct FlowState`); the chaining node `flowChain` is the
position of the entry in its chain. -/
structure FlowState where
  hashId : Nat
  hitTimeStamp : Nat
  deriving DecidableEq

/-- A bucket of the weighted deficit round robin scheduler (`struct WdrrBucket`); the node
`bucketChain` is the membership of the bucket in the lists of new and old buckets. The member
`packetQueue` points to a FIFO (droptail) queue: its content is `packetQueue`, and `maxSize` is
the capacity of that queue (its maximum number of packets or of bytes, per the mode of the
queue disc). -/
structure WdrrBucket where
  packetQueue : List QueueDiscItem
  maxSize : Nat
  deficit : Int
  deriving DecidableEq

/-- A counter of the multistage filter with its shadow valid stamp: the counter is stale when
the stamp is older than the current epoch of the filter. -/
structure CounterCell where
  value : Nat
  epochStamp : Nat
  deriving DecidableEq

/-- The members of `HhfQueueDisc`. -/
structure HhfQueueDisc where
  m_limit : Nat
  m_mode : QueueDiscMode
  /-- `m_buckets [WDRR_BUCKET_FOR_HH]` -/
  m_bucketHh : WdrrBucket
  /-- `m_buckets [WDRR_BUCKET_FOR_NON_HH]` -/
  m_bucketNonHh : WdrrBucket
  m_quantum : Nat
  m_dropOverLimit : Nat
  /-- The flow table T: one chain of flow states per slot. -/
  m_hhFlows : List (List FlowState)
  m_hhFlowsLimit : Nat
  m_hhFlowsOverLimit : Nat
  m_hhFlowsTotalCnt : Nat
  m_hhFlowsCurrentCnt : Nat
  /-- The multistage filter F, with the shadow valid stamps of `m_validBits`. -/
  m_counterArrays : List (List CounterCell)
  /-- The current epoch of the filter. -/
  m_epoch : Nat
  m_arraysResetTimestamp : Nat
  m_newBuckets : List WdrrBucketIndex
  m_oldBuckets : List WdrrBucketIndex
  m_resetTimeout : Nat
  m_admitBytes : Nat
  m_evictTimeout : Nat
  m_nonHhWeight : Nat

/-- `m_buckets [idx]`. -/
def bucket (q : HhfQueueDisc) : WdrrBucketIndex → WdrrBucket
  | .WDRR_BUCKET_FOR_HH => q.m_bucketHh
  | .WDRR_BUCKET_FOR_NON_HH => q.m_bucketNonHh

/-- The assignment `m_buckets [idx] = b`. -/
def setBucket (q : HhfQueueDisc) (idx : WdrrBucketIndex) (b : WdrrBucket) : HhfQueueDisc :=
  match idx with
  | .WDRR_BUCKET_FOR_HH => { q with m_bucketHh := b }
  | .WDRR_BUCKET_FOR_NON_HH => { q with m_bucketNonHh := b }

/-- Modelled from the spec: `hhf-queue-disc.cc` is missing; the number of packets queued in
the FIFOs of the two buckets. -/
def GetNPackets (q : HhfQueueDisc) : Nat :=
  q.m_bucketHh.packetQueue.length + q.m_bucketNonHh.packetQueue.length

/-- Modelled from the spec: `hhf-queue-disc.cc` is missing; the number of bytes queued in the
FIFOs of the two buckets. -/
def GetNBytes (q : HhfQueueDisc) : Nat :=
  (q.m_bucketHh.packetQueue.map QueueDiscItem.size).sum +
    (q.m_bucketNonHh.packetQueue.map QueueDiscItem.size).sum

/-- Modelled from the spec: `hhf-queue-disc.cc` is missing (only the header is at hand);
`GetDiscSize` is the aggregate queued size, in bytes or in packets per the configured mode. -/
def GetDiscSize (q : HhfQueueDisc) : Nat :=
  match q.m_mode with
  | .QUEUE_DISC_MODE_PACKETS => GetNPackets q
  | .QUEUE_DISC_MODE_BYTES => GetNBytes q

/-- Modelled from the spec: `hhf-queue-disc.cc` is missing; the size that an item adds to the
aggregate queued size, in the unit of the mode. -/
def itemSize (q : HhfQueueDisc) (item : QueueDiscItem) : Nat :=
  match q.m_mode with
  | .QUEUE_DISC_MODE_PACKETS => 1
  | .QUEUE_DISC_MODE_BYTES => item.size

/-- Modelled from the spec: `hhf-queue-disc.cc` is missing; `InitializeParams` for a table
capacity `N`: the buckets and rotation lists are empty, the flow table has `N` empty chains
and admits at most `N` flows, and the filter has `HHF_ARRAYS_CNT` arrays of `HHF_ARRAYS_LEN`
zeroed counters. The configuration members and the capacities of the two FIFOs are taken
from `cfg`. -/
def InitializeParams (cfg : HhfQueueDisc) (N : Nat) : HhfQueueDisc :=
  { cfg with
    m_bucketHh := { cfg.m_bucketHh with packetQueue := [], deficit := 0 },
    m_bucketNonHh := { cfg.m_bucketNonHh with packetQueue := [], deficit := 0 },
    m_dropOverLimit := 0,
    m_hhFlows := List.replicate N [],
    m_hhFlowsLimit := N, m_hhFlowsOverLimit := 0, m_hhFlowsTotalCnt := 0,
    m_hhFlowsCurrentCnt := 0,
    m_counterArrays := List.replicate HHF_ARRAYS_CNT (List.replicate HHF_ARRAYS_LEN ⟨0, 0⟩),
    m_epoch := 0, m_arraysResetTimestamp := 0,
    m_newBuckets := [], m_oldBuckets := [] }

/-! ## Counting filter -/

/-- Modelled from the spec: `hhf-queue-disc.cc` is missing; one array of the filter updated
for a packet of `size` bytes at index `pos`: a stale counter is reset to 0 and stamped with
the current epoch, then `size` is added (32-bit unsigned). Returns the new counter value and
the new array. -/
def updateArray (epoch size pos : Nat) (arr : List CounterCell) : Nat × List CounterCell :=
  let cell := arr.getD pos ⟨0, 0⟩
  let cell := if cell.epochStamp < epoch then (⟨0, epoch⟩ : CounterCell) else cell
  let value := (cell.value + size) % 4294967296
  (value, arr.set pos { cell with value := value })

/-- Modelled from the spec: `hhf-queue-disc.cc` is missing; the update of the arrays
`i, i+1, ...` of the filter, with the minimum of the updated counters (`est` is the minimum
so far). -/
def updateArrays (mix : Nat → Nat → Nat) (epoch : Nat) (item : QueueDiscItem) :
    Nat → List (List CounterCell) → Nat → Nat × List (List CounterCell)
  | _, [], est => (est, [])
  | i, arr :: rest, est =>
    let r := updateArray epoch item.size (maskedIndex (mix item.hash i)) arr
    let rs := updateArrays mix epoch item (i + 1) rest (min est r.1)
    (rs.1, r.2 :: rs.2)

/-- Modelled from the spec: `hhf-queue-disc.cc` is missing; the counting filter of section
4.1. The epoch advances when the reset timeout has elapsed since the last reset (cells are
not cleared, staleness is detected on the next touch); each of the K arrays is updated at the
index `mix (hash, array id)` masked to the array length; the estimate of the flow is the
minimum of the updated counters. `mix` is the hash mix, which the spec leaves open. -/
def updateFilter (mix : Nat → Nat → Nat) (now : Nat) (q : HhfQueueDisc) (item : QueueDiscItem) :
    Nat × HhfQueueDisc :=
  let q1 :=
    if q.m_arraysResetTimestamp + q.m_resetTimeout < now then
      { q with m_epoch := q.m_epoch + 1, m_arraysResetTimestamp := now }
    else q
  let r := updateArrays mix q1.m_epoch item 0 q1.m_counterArrays 4294967295
  (r.1, { q1 with m_counterArrays := r.2 })

/-! ## Flow table -/

/-- Modelled from the spec: `hhf-queue-disc.cc` is missing; `SeekList` looks up a heavy-hitter
flow in a chain of the table T and returns the position of the entry with the matching
hash. -/
def SeekList (hash : Nat) (chain : List FlowState) : Option Nat :=
  let i := chain.findIdx (fun e => e.hashId == hash)
  if i < chain.length then some i else none

/-- Modelled from the spec: `hhf-queue-disc.cc` is missing; an entry is aged when its last hit
is older than the eviction timeout. -/
def aged (q : HhfQueueDisc) (now : Nat) (e : FlowState) : Bool :=
  decide (e.hitTimeStamp + q.m_evictTimeout < now)

/-- Modelled from the spec: `hhf-queue-disc.cc` is missing; `AllocNewHh` returns a flow state
entry of the chain at `slot` for a new heavy-hitter: it reuses the first aged entry of the
chain, or else allocates a new entry at the tail of the chain when the number of admitted
flows is below the capacity; otherwise it counts the refusal and returns no entry. The
result is the position of the entry in the chain. -/
def AllocNewHh (q : HhfQueueDisc) (now slot : Nat) : Option Nat × HhfQueueDisc :=
  let chain := q.m_hhFlows.getD slot []
  let i := chain.findIdx (aged q now)
  if i < chain.length then (some i, q)
  else if q.m_hhFlowsCurrentCnt < q.m_hhFlowsLimit then
    (some chain.length,
     { q with m_hhFlows := q.m_hhFlows.set slot (chain ++ [⟨0, 0⟩]),
              m_hhFlowsCurrentCnt := q.m_hhFlowsCurrentCnt + 1 })
  else (none, { q with m_hhFlowsOverLimit := q.m_hhFlowsOverLimit + 1 })

/-- Modelled from the spec: `hhf-queue-disc.cc` is missing; the entry at position `i` of the
chain at `slot` overwritten with `e` (in place). -/
def setFlow (q : HhfQueueDisc) (slot i : Nat) (e : FlowState) : HhfQueueDisc :=
  { q with m_hhFlows := q.m_hhFlows.set slot ((q.m_hhFlows.getD slot []).set i e) }

/-- Modelled from the spec: `hhf-queue-disc.cc` is missing; `DoClassify` assigns a packet to
a bucket (sections 2, 4.1 and 4.2). The filter is updated, then the chain at slot
`hash mod N` of the flow table is looked up: a flow already in the table has its time stamp
refreshed (as on every packet of an admitted flow) and goes to the heavy bucket; otherwise, on
a heavy verdict (estimate above the admission threshold), `AllocNewHh` is asked for an entry:
with an entry the flow is admitted (hash and time stamp written) and goes to the heavy bucket,
without one it goes to the non-heavy bucket; without a heavy verdict it goes to the
non-heavy bucket. -/
def DoClassify (mix : Nat → Nat → Nat) (now : Nat) (q : HhfQueueDisc) (item : QueueDiscItem) :
    WdrrBucketIndex × HhfQueueDisc :=
  let r := updateFilter mix now q item
  let q1 := r.2
  let slot := item.hash % q1.m_hhFlowsLimit
  match SeekList item.hash (q1.m_hhFlows.getD slot []) with
  | some i => (.WDRR_BUCKET_FOR_HH, setFlow q1 slot i ⟨item.hash, now⟩)
  | none =>
    if r.1 > q1.m_admitBytes then
      match AllocNewHh q1 now slot with
      | (some i, q2) =>
        (.WDRR_BUCKET_FOR_HH,
         { setFlow q2 slot i ⟨item.hash, now⟩ with m_hhFlowsTotalCnt := q2.m_hhFlowsTotalCnt + 1 })
      | (none, q2) => (.WDRR_BUCKET_FOR_NON_HH, q2)
    else (.WDRR_BUCKET_FOR_NON_HH, q1)

/-! ## Drop policy, enqueue and dequeue -/

/-- Modelled from the spec: `hhf-queue-disc.cc` is missing; `DoDrop` drops a packet from the
head of a bucket, the heavy-hitter bucket first and, if it is empty, the non-heavy-hitter
bucket, and returns the index of the bucket from which the packet was dropped. With both
buckets empty there is no packet to drop. -/
def DoDrop (q : HhfQueueDisc) : Nat × HhfQueueDisc :=
  match q.m_bucketHh.packetQueue with
  | _ :: rest =>
    (WdrrBucketIndex.WDRR_BUCKET_FOR_HH.toNat,
     { q with m_bucketHh := { q.m_bucketHh with packetQueue := rest } })
  | [] =>
    match q.m_bucketNonHh.packetQueue with
    | _ :: rest =>
      (WdrrBucketIndex.WDRR_BUCKET_FOR_NON_HH.toNat,
       { q with m_bucketNonHh := { q.m_bucketNonHh with packetQueue := rest } })
    | [] => (WdrrBucketIndex.WDRR_BUCKET_FOR_NON_HH.toNat, q)

/-- Modelled from the spec: `hhf-queue-disc.cc` is missing; the item is pushed to the FIFO of
bucket `idx`, and a bucket that turns from empty to non-empty (and is on no rotation list)
joins the list of new buckets, its deficit carried over. -/
def pushToBucket (q : HhfQueueDisc) (idx : WdrrBucketIndex) (item : QueueDiscItem) :
    HhfQueueDisc :=
  let b := bucket q idx
  let q1 := setBucket q idx { b with packetQueue := b.packetQueue ++ [item] }
  if b.packetQueue.isEmpty ∧ idx ∉ q.m_newBuckets ∧ idx ∉ q.m_oldBuckets then
    { q1 with m_newBuckets := q1.m_newBuckets ++ [idx] }
  else q1

/-- Modelled from the spec: `hhf-queue-disc.cc` is missing; the size of the FIFO of a bucket,
in the unit of the mode. -/
def fifoSize (q : HhfQueueDisc) (b : WdrrBucket) : Nat :=
  match q.m_mode with
  | .QUEUE_DISC_MODE_PACKETS => b.packetQueue.length
  | .QUEUE_DISC_MODE_BYTES => (b.packetQueue.map QueueDiscItem.size).sum

/-- Modelled from the spec: `hhf-queue-disc.cc` is missing; the packet is routed to the FIFO
of bucket `idx` (`enqueue(item) -> bool` of the FIFO storage): a drop-tail queue refuses the
item that does not fit its capacity, otherwise the item is pushed. -/
def routeToBucket (q : HhfQueueDisc) (idx : WdrrBucketIndex) (item : QueueDiscItem) :
    Bool × HhfQueueDisc :=
  if fifoSize q (bucket q idx) + itemSize q item > (bucket q idx).maxSize then (false, q)
  else (true, pushToBucket q idx item)

/-- Modelled from the spec: `hhf-queue-disc.cc` is missing; `DoEnqueue` in the order of
section 2 (classify, route, admission check and drop): the packet is classified and pushed to
the FIFO of its bucket; then, if the resulting aggregate size exceeds the configured limit,
exactly one packet is dropped (`DoDrop` of section 4.4, counted in `m_dropOverLimit`). The
result tells whether the FIFO took the packet. -/
def DoEnqueue (mix : Nat → Nat → Nat) (now : Nat) (q : HhfQueueDisc) (item : QueueDiscItem) :
    Bool × HhfQueueDisc :=
  let c := DoClassify mix now q item
  let r := routeToBucket c.2 c.1 item
  if GetDiscSize r.2 > r.2.m_limit then
    (r.1, { (DoDrop r.2).2 with m_dropOverLimit := r.2.m_dropOverLimit + 1 })
  else r

/-- Modelled from the spec: `hhf-queue-disc.cc` is missing; the weight of a bucket: 1 for the
heavy-hitter bucket, `m_nonHhWeight` for the other. -/
def weight (q : HhfQueueDisc) : WdrrBucketIndex → Nat
  | .WDRR_BUCKET_FOR_HH => 1
  | .WDRR_BUCKET_FOR_NON_HH => q.m_nonHhWeight

/-- Modelled from the spec: `hhf-queue-disc.cc` is missing; the head packet `head` of bucket
`idx` (at the head of the list of new buckets, the rest of which is `restNew`) is dequeued
with the deficit `deficit`: the deficit is charged, and the bucket leaves the rotation if its
FIFO is now empty. -/
def serveHead (q : HhfQueueDisc) (idx : WdrrBucketIndex) (restNew : List WdrrBucketIndex)
    (head : QueueDiscItem) (tail : List QueueDiscItem) (deficit : Int) :
    Option QueueDiscItem × HhfQueueDisc :=
  let q1 := setBucket q idx
    { bucket q idx with packetQueue := tail, deficit := deficit - head.size }
  (some head, if tail.isEmpty then { q1 with m_newBuckets := restNew } else q1)

/-- Modelled from the spec: `hhf-queue-disc.cc` is missing; the dequeue of the WDRR scheduler
(section 4.3), with a bound `fuel` on the number of buckets examined. The bucket at the head
of the list of new buckets is examined: an empty one leaves the rotation; one whose deficit
is below the size of its head packet is replenished by `quantum * weight` and, if that is
still insufficient, moved to the list of old buckets; otherwise its head packet is dequeued.
When the list of new buckets is exhausted the two lists are swapped. -/
def DoDequeueLoop : Nat → HhfQueueDisc → Option QueueDiscItem × HhfQueueDisc
  | 0, q => (none, q)
  | fuel + 1, q =>
    match q.m_newBuckets with
    | [] =>
      match q.m_oldBuckets with
      | [] => (none, q)
      | old => DoDequeueLoop fuel { q with m_newBuckets := old, m_oldBuckets := [] }
    | idx :: restNew =>
      match (bucket q idx).packetQueue with
      | [] => DoDequeueLoop fuel { q with m_newBuckets := restNew }
      | head :: tail =>
        if (bucket q idx).deficit < (head.size : Int) then
          let deficit := (bucket q idx).deficit + ((q.m_quantum * weight q idx : Nat) : Int)
          if deficit < (head.size : Int) then
            DoDequeueLoop fuel
              { setBucket q idx { bucket q idx with deficit := deficit } with
                m_newBuckets := restNew, m_oldBuckets := q.m_oldBuckets ++ [idx] }
          else serveHead q idx restNew head tail deficit
        else serveHead q idx restNew head tail (bucket q idx).deficit

/-- Modelled from the spec: `hhf-queue-disc.cc` is missing; `DoDequeue` is the dequeue of the
WDRR scheduler, with the bound `fuel` on the number of buckets examined. -/
def DoDequeue (fuel : Nat) (q : HhfQueueDisc) : Option QueueDiscItem × HhfQueueDisc :=
  DoDequeueLoop fuel q

/-- The states reached from `InitializeParams` with table capacity `N` by classifying,
enqueueing and dequeueing packets. -/
inductive Reachable (mix : Nat → Nat → Nat) (N : Nat) : HhfQueueDisc → Prop where
  | init (cfg : HhfQueueDisc) : Reachable mix N (InitializeParams cfg N)
  | classify (q : HhfQueueDisc) (now : Nat) (item : QueueDiscItem) (h : Reachable mix N q) :
      Reachable mix N (DoClassify mix now q item).2
  | enqueue (q : HhfQueueDisc) (now : Nat) (item : QueueDiscItem) (h : Reachable mix N q) :
      Reachable mix N (DoEnqueue mix now q item).2
  | dequeue (q : HhfQueueDisc) (fuel : Nat) (h : Reachable mix N q) :
      Reachable mix N (DoDequeue fuel q).2

/-- The states reached as in `Reachable` when every packet handed to `DoEnqueue` satisfies
`ok`. -/
inductive ReachableSized (mix : Nat → Nat → Nat) (N : Nat) (ok : QueueDiscItem → Prop) :
    HhfQueueDisc → Prop where
  | init (cfg : HhfQueueDisc) : ReachableSized mix N ok (InitializeParams cfg N)
  | classify (q : HhfQueueDisc) (now : Nat) (item : QueueDiscItem)
      (h : ReachableSized mix N ok q) : ReachableSized mix N ok (DoClassify mix now q item).2
  | enqueue (q : HhfQueueDisc) (now : Nat) (item : QueueDiscItem)
      (h : ReachableSized mix N ok q) (hok : ok item) :
      ReachableSized mix N ok (DoEnqueue mix now q item).2
  | dequeue (q : HhfQueueDisc) (fuel : Nat) (h : ReachableSized mix N ok q) :
      ReachableSized mix N ok (DoDequeue fuel q).2

/-- The part of the state that the limit on the queued size is about: the mode, the limit
and the two FIFOs. -/
def queueView (q : HhfQueueDisc) :
    QueueDiscMode × Nat × List QueueDiscItem × List QueueDiscItem :=
  (q.m_mode, q.m_limit, q.m_bucketHh.packetQueue, q.m_bucketNonHh.packetQueue)

/-- The part of the state that the admission of heavy-hitters is about: the flow table, the
number of admitted flows and the capacity. -/
def tableView (q : HhfQueueDisc) : List (List FlowState) × Nat × Nat :=
  (q.m_hhFlows, q.m_hhFlowsCurrentCnt, q.m_hhFlowsLimit)

/-- The number of entries of the flow table. -/
def tableEntries (q : HhfQueueDisc) : Nat := (q.m_hhFlows.map List.length).sum

/-- The invariant of the flow table: the counter of admitted flows is the number of entries of
the table, it does not exceed the capacity, and the table has as many chains as the
capacity. -/
def TableInv (q : HhfQueueDisc) : Prop :=
  ((tableView q).1.map List.length).sum = (tableView q).2.1 ∧
  (tableView q).2.1 ≤ (tableView q).2.2 ∧
  (tableView q).1.length = (tableView q).2.2

/-- A configuration in byte mode with a limit of 100 bytes, FIFOs of 100 bytes each, and an
admission threshold of 40 bytes. -/
def bytesConfig : HhfQueueDisc :=
  { m_limit := 100, m_mode := .QUEUE_DISC_MODE_BYTES, m_bucketHh := ⟨[], 100, 0⟩,
    m_bucketNonHh := ⟨[], 100, 0⟩, m_quantum := 1514, m_dropOverLimit := 0, m_hhFlows := [],
    m_hhFlowsLimit := 0, m_hhFlowsOverLimit := 0, m_hhFlowsTotalCnt := 0,
    m_hhFlowsCurrentCnt := 0, m_counterArrays := [], m_epoch := 0,
    m_arraysResetTimestamp := 0, m_newBuckets := [], m_oldBuckets := [],
    m_resetTimeout := 40, m_admitBytes := 40, m_evictTimeout := 1000, m_nonHhWeight := 2 }

/-- A configuration in packet mode with a limit of 2 packets, FIFOs of 2 packets each, and an
admission threshold of 100 bytes. -/
def packetsConfig : HhfQueueDisc :=
  { bytesConfig with
    m_limit := 2, m_mode := .QUEUE_DISC_MODE_PACKETS, m_bucketHh := ⟨[], 2, 0⟩,
    m_bucketNonHh := ⟨[], 2, 0⟩, m_admitBytes := 100 }

/-- The hash mix used in the examples. -/
def exampleMix (hash i : Nat) : Nat := hash + i

/-- Packet mode, table capacity 1: the initial state. -/
def packetsInit : HhfQueueDisc := InitializeParams packetsConfig 1

/-- Packet mode, table capacity 1: a packet of 1500 bytes of flow 7 was enqueued; the flow is
admitted as a heavy-hitter. -/
def packetsOne : HhfQueueDisc := (DoEnqueue exampleMix 0 packetsInit ⟨1500, 7⟩).2

end Hhf

namespace Tbf

/-! ## Machine integers -/

/-- The value of an integer stored into an `int64_t` (two's complement wrap-around). -/
def toInt64 (x : Int) : Int :=
  (x + 9223372036854775808) % 18446744073709551616 - 9223372036854775808

/-- The 64-bit pattern of an `int64_t` value. -/
def toUInt64 (x : Int) : Nat := (x % 18446744073709551616).toNat

/-- The value of an integer stored into a `uint32_t` (wrap-around modulo `2^32`). -/
def toUInt32 (x : Int) : Nat := (x % 4294967296).toNat

/-- The bitwise OR `x | y` of two `int64_t` values: the OR of the two 64-bit patterns,
read back as a signed value. -/
def or64 (x y : Int) : Int := toInt64 (Int.ofNat (toUInt64 x ||| toUInt64 y))

/-! ## Collaborators of the discipline -/

/-- The operating mode of an internal queue (`QueueBase::QueueMode`). -/
inductive QueueMode where
  | QUEUE_MODE_PACKETS
  | QUEUE_MODE_BYTES
  deriving DecidableEq

/-- The operating mode of the queue disc (`TbfQueueDisc::QueueDiscMode`). -/
inductive QueueDiscMode where
  | QUEUE_DISC_MODE_PACKETS
  | QUEUE_DISC_MODE_BYTES
  deriving DecidableEq

/-- The queue mode that an `EnumValue (m_mode)` of the queue disc selects on a queue. -/
def QueueDiscMode.toQueueMode : QueueDiscMode → QueueMode
  | .QUEUE_DISC_MODE_PACKETS => .QUEUE_MODE_PACKETS
  | .QUEUE_DISC_MODE_BYTES => .QUEUE_MODE_BYTES

/-- A queued packet; only its size matters to the discipline. -/
structure QueueDiscItem where
  size : Nat
  deriving DecidableEq

/-- `QueueDiscItem::GetSize` returns a `uint32_t`. -/
def QueueDiscItem.GetSize (item : QueueDiscItem) : Nat := item.size % 4294967296

/-- Modelled from the spec: the FIFO storage (`DropTailQueue<QueueDiscItem>`) is not part of
the sources at hand; it is a FIFO with `enqueue(item) -> bool`, `dequeue() -> item|empty`,
`peek`, `sizeInPackets`, `sizeInBytes`, `isEmpty`, a mode and a capacity in packets and in
bytes. -/
structure InternalQueue where
  mode : QueueMode
  maxPackets : Nat
  maxBytes : Nat
  packets : List QueueDiscItem
  deriving DecidableEq

instance : Inhabited InternalQueue := ⟨⟨.QUEUE_MODE_PACKETS, 0, 0, []⟩⟩

namespace InternalQueue

def GetMode (iq : InternalQueue) : QueueMode := iq.mode

def GetMaxPackets (iq : InternalQueue) : Nat := iq.maxPackets

def GetMaxBytes (iq : InternalQueue) : Nat := iq.maxBytes

def GetNPackets (iq : InternalQueue) : Nat := iq.packets.length

def GetNBytes (iq : InternalQueue) : Nat := (iq.packets.map QueueDiscItem.GetSize).sum

def IsEmpty (iq : InternalQueue) : Bool := iq.packets.isEmpty

def Peek (iq : InternalQueue) : Option QueueDiscItem := iq.packets.head?

/-- Removes the head of the FIFO; `none` when the FIFO is empty. -/
def Dequeue (iq : InternalQueue) : Option (QueueDiscItem × InternalQueue) :=
  match iq.packets with
  | [] => none
  | item :: rest => some (item, { iq with packets := rest })

/-- Drop-tail admission: the item is refused when the queue is full in its mode. -/
def Enqueue (iq : InternalQueue) (item : QueueDiscItem) : Bool × InternalQueue :=
  if (iq.mode = .QUEUE_MODE_PACKETS ∧ iq.GetNPackets ≥ iq.maxPackets) ∨
      (iq.mode = .QUEUE_MODE_BYTES ∧ iq.GetNBytes + item.GetSize > iq.maxBytes) then
    (false, iq)
  else
    (true, { iq with packets := iq.packets ++ [item] })

end InternalQueue

/-- A scheduled event: its unique id and the time (in seconds) at which it runs. -/
structure Event where
  uid : Nat
  ts : ℚ
  deriving DecidableEq

/-- An `EventId`: `none` is the default-constructed `EventId ()`, `some uid` refers to the
event with that unique id. -/
abbrev EventId := Option Nat

/-- Modelled from the spec: the discrete-event clock and scheduling primitive
(`Simulator::Now`, `Simulator::Schedule`, `EventId::IsExpired`) are not part of the sources at
hand. The state keeps the clock, the next unique event id, and the wake-up events that the
queue disc scheduled and that have not run yet. -/
structure Simulator where
  now : ℚ
  nextUid : Nat
  pending : List Event

namespace Simulator

/-- `Simulator::Now`. -/
def Now (sim : Simulator) : ℚ := sim.now

/-- `EventId::IsExpired`: a default-constructed id is expired, and so is the id of an event
that is no longer pending. -/
def IsExpired (sim : Simulator) (id : EventId) : Bool :=
  match id with
  | none => true
  | some uid => !(sim.pending.any (fun e => e.uid == uid))

/-- `Simulator::Schedule (delay, &QueueDisc::Run, this)`: a new pending event, `delay` after
the current time. -/
def Schedule (sim : Simulator) (delay : ℚ) : EventId × Simulator :=
  (some sim.nextUid,
   { sim with nextUid := sim.nextUid + 1,
              pending := sim.pending ++ [⟨sim.nextUid, sim.now + delay⟩] })

end Simulator

/-- A `DataRate`, in bits per second (`GetBitRate`). -/
abbrev DataRate := Nat

/-- Modelled from the spec: `DataRate::CalculateBytesTxTime` is not part of the sources at
hand; it is the time, in seconds, that `bytes` bytes take at the rate `bps`. -/
def CalculateBytesTxTime (bps : DataRate) (bytes : Int) : ℚ := ((bytes : ℚ) * 8) / (bps : ℚ)

/-! ## The queue disc -/

/-- The state of a `TbfQueueDisc`: the part of the `QueueDisc` base class that `CheckConfig`
reads, and the members of the class. -/
structure TbfQueueDisc where
  /-- `GetNQueueDiscClasses ()` -/
  nQueueDiscClasses : Nat
  /-- `GetNPacketFilters ()` -/
  nPacketFilters : Nat
  /-- The internal queues, `GetInternalQueue (i)`. -/
  internalQueues : List InternalQueue
  /-- `GetNetDevice ()`, when set, with its `GetMtu ()`. -/
  netDevice : Option Nat
  m_limit : Nat
  m_mode : QueueDiscMode
  m_burst : Nat
  m_mtu : Nat
  m_rate : DataRate
  m_peakRate : DataRate
  m_btokens : Nat
  m_ptokens : Nat
  m_timeCheckPoint : ℚ
  m_id : EventId

/-- The members are 32-bit unsigned (64-bit for the rates, 16-bit for the device MTU). -/
structure WellFormed (q : TbfQueueDisc) : Prop where
  limit_lt : q.m_limit < 4294967296
  burst_lt : q.m_burst < 4294967296
  mtu_lt : q.m_mtu < 4294967296
  btokens_lt : q.m_btokens < 4294967296
  ptokens_lt : q.m_ptokens < 4294967296
  rate_lt : q.m_rate < 18446744073709551616
  peakRate_lt : q.m_peakRate < 18446744073709551616
  devMtu_lt : ∀ m, q.netDevice = some m → m < 65536

def GetNQueueDiscClasses (q : TbfQueueDisc) : Nat := q.nQueueDiscClasses

def GetNPacketFilters (q : TbfQueueDisc) : Nat := q.nPacketFilters

def GetNInternalQueues (q : TbfQueueDisc) : Nat := q.internalQueues.length

/-- `GetInternalQueue (i)`; the index is asserted to be in range by the base class. -/
def GetInternalQueue (q : TbfQueueDisc) (i : Nat) : InternalQueue :=
  q.internalQueues.getD i default

def AddInternalQueue (q : TbfQueueDisc) (iq : InternalQueue) : TbfQueueDisc :=
  { q with internalQueues := q.internalQueues ++ [iq] }

/-- The value of the attribute `MaxPackets` of a freshly created queue (the properties below
do not depend on it). -/
def defaultMaxPackets : Nat := 100

/-- The value of the attribute `MaxBytes` of a freshly created queue (the properties below do
not depend on it). -/
def defaultMaxBytes : Nat := 100 * 65535

/-- The queue that `CheckConfig` creates when there is none: a drop-tail queue in the mode of
the queue disc, with `m_limit` as its capacity in that mode. -/
def createDropTailQueue (q : TbfQueueDisc) : InternalQueue :=
  if q.m_mode = .QUEUE_DISC_MODE_PACKETS then
    { mode := q.m_mode.toQueueMode, maxPackets := q.m_limit, maxBytes := defaultMaxBytes,
      packets := [] }
  else
    { mode := q.m_mode.toQueueMode, maxPackets := defaultMaxPackets, maxBytes := q.m_limit,
      packets := [] }

/-- The first step of `CheckConfig` after the class and filter checks: a drop-tail queue is
created and added when there is no internal queue. -/
def createQueueIfNone (q : TbfQueueDisc) : TbfQueueDisc :=
  if GetNInternalQueues q = 0 then AddInternalQueue q (createDropTailQueue q) else q

/-- The step of `CheckConfig` that fills in `m_mtu` from the net device:
`if (m_mtu == 0 and GetNetDevice () and m_peakRate > DataRate ("0bps"))`. -/
def fillMtuFromDevice (q : TbfQueueDisc) : TbfQueueDisc :=
  match q.netDevice with
  | some devMtu => if q.m_mtu = 0 ∧ q.m_peakRate > 0 then { q with m_mtu := devMtu } else q
  | none => q

/-- `TbfQueueDisc::CheckConfig`: the returned flag, and the state it leaves (an internal queue
may have been created, `m_mtu` may have been filled in from the net device). -/
def CheckConfig (q : TbfQueueDisc) : Bool × TbfQueueDisc :=
  if GetNQueueDiscClasses q > 0 then (false, q)
  else if GetNPacketFilters q > 0 then (false, q)
  else
    let q1 := createQueueIfNone q
    if GetNInternalQueues q1 ≠ 1 then (false, q1)
    else if ((GetInternalQueue q1 0).GetMode = .QUEUE_MODE_PACKETS ∧
              q1.m_mode = .QUEUE_DISC_MODE_BYTES) ∨
            ((GetInternalQueue q1 0).GetMode = .QUEUE_MODE_BYTES ∧
              q1.m_mode = .QUEUE_DISC_MODE_PACKETS) then (false, q1)
    else if (q1.m_mode = .QUEUE_DISC_MODE_PACKETS ∧
              (GetInternalQueue q1 0).GetMaxPackets < q1.m_limit) ∨
            (q1.m_mode = .QUEUE_DISC_MODE_BYTES ∧
              (GetInternalQueue q1 0).GetMaxBytes < q1.m_limit) then (false, q1)
    else
      let q2 := fillMtuFromDevice q1
      if q2.m_mtu = 0 ∧ q2.m_peakRate > 0 then (false, q2)
      else if q2.m_mtu ≠ 0 ∧ q2.m_peakRate = 0 then (false, q2)
      else if q2.m_burst ≤ q2.m_mtu then (false, q2)
      else if q2.m_peakRate > 0 ∧ q2.m_peakRate ≤ q2.m_rate then (false, q2)
      else (true, q2)

/-- `TbfQueueDisc::InitializeParams`: the token buckets are full at the beginning. -/
def InitializeParams (q : TbfQueueDisc) : TbfQueueDisc :=
  { q with m_btokens := q.m_burst, m_ptokens := q.m_mtu, m_timeCheckPoint := 0, m_id := none }

/-- `TbfQueueDisc::DoEnqueue`. -/
def DoEnqueue (q : TbfQueueDisc) (item : QueueDiscItem) : Bool × TbfQueueDisc :=
  let r := (GetInternalQueue q 0).Enqueue item
  (r.1, { q with internalQueues := q.internalQueues.set 0 r.2 })

/-- `TbfQueueDisc::DoPeek`. -/
def DoPeek (q : TbfQueueDisc) : Option QueueDiscItem :=
  if (GetInternalQueue q 0).IsEmpty then none else (GetInternalQueue q 0).Peek

/-- The balance `ptoks` of the second (peak) bucket that `DoDequeue` computes for a head
packet of `packetByteSize` bytes, `incP` being the value of
`round (delta * (m_peakRate.GetBitRate () / 8))`. -/
def computePtoks (q : TbfQueueDisc) (packetByteSize : Int) (incP : Nat) : Int :=
  if q.m_mtu > 0 ∧ q.m_peakRate > 0 then
    let ptoks := toInt64 ((q.m_ptokens : Int) + (incP : Int))
    let ptoks := if ptoks > (q.m_mtu : Int) then (q.m_mtu : Int) else ptoks
    toInt64 (ptoks - packetByteSize)
  else 0

/-- The balance `btoks` of the first bucket that `DoDequeue` computes for a head packet of
`packetByteSize` bytes, `incB` being the value of
`round (delta * (m_rate.GetBitRate () / 8))`. The sum of the tokens and the increment is
converted to `int64_t`, which C++ defines only when it fits; `toInt64` keeps the model
total. -/
def computeBtoks (q : TbfQueueDisc) (packetByteSize : Int) (incB : Nat) : Int :=
  let btoks := toInt64 ((q.m_btokens : Int) + (incB : Int))
  let btoks := if btoks > (q.m_burst : Int) then (q.m_burst : Int) else btoks
  toInt64 (btoks - packetByteSize)

/-- The release test `(btoks|ptoks) >= 0` of `DoDequeue`. -/
def releaseTest (btoks ptoks : Int) : Bool := decide (or64 btoks ptoks ≥ 0)

/-- The delay of the wake-up that the blocked branch of `DoDequeue` schedules. -/
def requiredDelayTime (q : TbfQueueDisc) (btoks ptoks : Int) : ℚ :=
  if toInt64 (-btoks) > toInt64 (-ptoks) then
    CalculateBytesTxTime q.m_rate (toInt64 (-btoks))
  else
    CalculateBytesTxTime q.m_peakRate (toInt64 (-ptoks))

/-- `TbfQueueDisc::DoDequeue`, the two token increments
`round (delta * (rate.GetBitRate () / 8))` being given as `incB` (first bucket) and `incP`
(second bucket). Returns the dequeued item (if any) and the new states of the queue disc and
of the simulator. -/
def DoDequeue (q : TbfQueueDisc) (sim : Simulator) (incB incP : Nat) :
    Option QueueDiscItem × TbfQueueDisc × Simulator :=
  match DoPeek q with
  | none => (none, q, sim)
  | some itemPeek =>
    let packetByteSize : Int := (itemPeek.GetSize : Int)
    let now := sim.Now
    let ptoks := computePtoks q packetByteSize incP
    let btoks := computeBtoks q packetByteSize incB
    if releaseTest btoks ptoks then
      match (GetInternalQueue q 0).Dequeue with
      | none => (none, q, sim)
      | some (item, iq) =>
        (some item,
         { q with internalQueues := q.internalQueues.set 0 iq,
                  m_timeCheckPoint := now,
                  m_btokens := toUInt32 btoks,
                  m_ptokens := toUInt32 ptoks },
         sim)
    else
      if sim.IsExpired q.m_id then
        let r := sim.Schedule (requiredDelayTime q btoks ptoks)
        (none, { q with m_id := r.1 }, r.2)
      else (none, q, sim)

/-- The value of C's `round` (half away from zero) on a non-negative rational. -/
def roundNonneg (x : ℚ) : Nat := (Int.floor (x + 1 / 2)).toNat

/-- The token increment `round (delta * (rate.GetBitRate () / 8))` for the time `delta`
elapsed since the check point; the division by 8 is the integer division of the 64-bit bit
rate. The product is taken in exact arithmetic, where the code takes it in `double`
arithmetic: the two agree unless the exact product is within the rounding error of a `double`
of a half-integer (at 0.145 s and 100 bytes per second the exact product is 14.5 and rounds
to 15, the `double` product is just below 14.5 and rounds to 14). It is only evaluated at
products that are far from a half-integer (0, 0.1 and 10 bytes). -/
def tokenIncrement (delta : ℚ) (rate : DataRate) : Nat :=
  roundNonneg (delta * ((rate / 8 : Nat) : ℚ))

/-- `TbfQueueDisc::DoDequeue` at the current time of the simulator, with the token
increments computed from the clock in exact arithmetic. -/
def DoDequeueNow (q : TbfQueueDisc) (sim : Simulator) :
    Option QueueDiscItem × TbfQueueDisc × Simulator :=
  let delta := sim.Now - q.m_timeCheckPoint
  DoDequeue q sim (tokenIncrement delta q.m_rate) (tokenIncrement delta q.m_peakRate)

/-- The balance `btoks` at elapsed time `delta` in exact rational arithmetic (no rounding of
the increment). -/
def exactBtoks (q : TbfQueueDisc) (packetByteSize : ℚ) (delta : ℚ) : ℚ :=
  let btoks := (q.m_btokens : ℚ) + delta * ((q.m_rate / 8 : Nat) : ℚ)
  let btoks := if btoks > (q.m_burst : ℚ) then (q.m_burst : ℚ) else btoks
  btoks - packetByteSize

/-- The balance `ptoks` at elapsed time `delta` in exact rational arithmetic (no rounding of
the increment). -/
def exactPtoks (q : TbfQueueDisc) (packetByteSize : ℚ) (delta : ℚ) : ℚ :=
  if q.m_mtu > 0 ∧ q.m_peakRate > 0 then
    let ptoks := (q.m_ptokens : ℚ) + delta * ((q.m_peakRate / 8 : Nat) : ℚ)
    let ptoks := if ptoks > (q.m_mtu : ℚ) then (q.m_mtu : ℚ) else ptoks
    ptoks - packetByteSize
  else 0

/-- A running queue disc together with the simulator that drives it. -/
structure System where
  disc : TbfQueueDisc
  sim : Simulator

/-- The states reached from `InitializeParams` on a well-formed configuration: the clock
advances, pending wake-up events run, packets are enqueued, and `DoDequeue` is called with
token increments that are non-negative integers fitting the 64-bit balances. -/
inductive Reachable : System → Prop where
  | init (q : TbfQueueDisc) (now : ℚ) (nextUid : Nat) (h : WellFormed q) :
      Reachable ⟨InitializeParams q, ⟨now, nextUid, []⟩⟩
  | advance (s : System) (t : ℚ) (h : Reachable s) (ht : s.sim.now ≤ t) :
      Reachable ⟨s.disc, { s.sim with now := t }⟩
  | run (s : System) (e : Event) (h : Reachable s) (he : e ∈ s.sim.pending) :
      Reachable ⟨s.disc, { s.sim with pending := s.sim.pending.erase e }⟩
  | enqueue (s : System) (item : QueueDiscItem) (h : Reachable s) :
      Reachable ⟨(DoEnqueue s.disc item).2, s.sim⟩
  | dequeue (s : System) (incB incP : Nat) (h : Reachable s)
      (hB : incB < 4611686018427387904) (hP : incP < 4611686018427387904) :
      Reachable ⟨(DoDequeue s.disc s.sim incB incP).2.1, (DoDequeue s.disc s.sim incB incP).2.2⟩

/-- The capacity of an internal queue in the unit of the mode of the queue disc. -/
def capacityIn (iq : InternalQueue) (mode : QueueDiscMode) : Nat :=
  match mode with
  | .QUEUE_DISC_MODE_PACKETS => iq.GetMaxPackets
  | .QUEUE_DISC_MODE_BYTES => iq.GetMaxBytes

/-- What holds of a configuration that passed all the checks of `CheckConfig`. -/
def ConfigOk (q : TbfQueueDisc) : Prop :=
  GetNQueueDiscClasses q = 0 ∧ GetNPacketFilters q = 0 ∧
  (∃ iq, q.internalQueues = [iq] ∧ iq.GetMode = q.m_mode.toQueueMode ∧
    q.m_limit ≤ capacityIn iq q.m_mode) ∧
  q.m_mtu < q.m_burst ∧
  ((q.m_mtu = 0 ∧ q.m_peakRate = 0) ∨ (0 < q.m_mtu ∧ q.m_rate < q.m_peakRate))

/-- The invariant of the token fields: the members keep their widths and the tokens stay
below the bucket sizes. -/
def TokensInv (q : TbfQueueDisc) : Prop :=
  WellFormed q ∧ q.m_btokens ≤ q.m_burst ∧ q.m_ptokens ≤ q.m_mtu

/-- A valid configuration in byte mode, peak bucket disabled, no internal queue yet. -/
def exampleConfig : TbfQueueDisc :=
  { nQueueDiscClasses := 0, nPacketFilters := 0, internalQueues := [], netDevice := none,
    m_limit := 1000, m_mode := .QUEUE_DISC_MODE_BYTES, m_burst := 100, m_mtu := 0,
    m_rate := 8000, m_peakRate := 0, m_btokens := 0, m_ptokens := 0,
    m_timeCheckPoint := 0, m_id := none }

/-- The configuration `exampleConfig` after `CheckConfig`, with two packets of 60 bytes in the
internal queue. -/
def exampleRunning : TbfQueueDisc :=
  { exampleConfig with
    internalQueues := [⟨.QUEUE_MODE_BYTES, 100, 1000, [⟨60⟩, ⟨60⟩]⟩] }

/-- The system right after `InitializeParams` on `exampleRunning`. -/
def afterInit : System := ⟨InitializeParams exampleRunning, ⟨0, 0, []⟩⟩

/-- The system after a first `DoDequeue`, which releases the first packet. -/
def afterRelease : System :=
  ⟨(DoDequeue afterInit.disc afterInit.sim 0 0).2.1,
   (DoDequeue afterInit.disc afterInit.sim 0 0).2.2⟩

/-- The system after a second `DoDequeue` at the same time, which blocks the second packet and
schedules a wake-up. -/
def afterBlock : System :=
  ⟨(DoDequeue afterRelease.disc afterRelease.sim 0 0).2.1,
   (DoDequeue afterRelease.disc afterRelease.sim 0 0).2.2⟩

/-- A configuration with the peak bucket enabled: 1 byte/s into the first bucket of 100 bytes,
100 bytes/s into the second bucket of 50 bytes. The first bucket holds 5 tokens, the second
none, the check point is the current time, and a packet of 10 bytes is at the head. -/
def pacedDisc : TbfQueueDisc :=
  { nQueueDiscClasses := 0, nPacketFilters := 0,
    internalQueues := [⟨.QUEUE_MODE_BYTES, 100, 1000, [⟨10⟩]⟩], netDevice := none,
    m_limit := 1000, m_mode := .QUEUE_DISC_MODE_BYTES, m_burst := 100, m_mtu := 50,
    m_rate := 8, m_peakRate := 800, m_btokens := 5, m_ptokens := 0,
    m_timeCheckPoint := 9 / 20, m_id := none }

/-- The simulator at time 9/20 s with no pending wake-up. -/
def pacedSim : Simulator := ⟨9 / 20, 0, []⟩

/-- The configuration of `pacedDisc` before `InitializeParams`, with packets of 50, 45 and 10
bytes in the internal queue. -/
def pacedConfig : TbfQueueDisc :=
  { pacedDisc with
    internalQueues := [⟨.QUEUE_MODE_BYTES, 100, 1000, [⟨50⟩, ⟨45⟩, ⟨10⟩]⟩],
    m_btokens := 0, m_ptokens := 0, m_timeCheckPoint := 0 }

/-- The state between the two releases that lead to `pacedDisc`. -/
def pacedMid : TbfQueueDisc :=
  { pacedDisc with
    internalQueues := [⟨.QUEUE_MODE_BYTES, 100, 1000, [⟨45⟩, ⟨10⟩]⟩],
    m_btokens := 50, m_ptokens := 0, m_timeCheckPoint := 0 }

end Tbf

/-! # Properties of the heavy-hitter filter queue disc -/

namespace Hhf

/-! ## Frame lemmas: what each operation leaves unchanged -/

theorem updateFilter_frame (mix : Nat → Nat → Nat) (now : Nat) (q : HhfQueueDisc)
    (item : QueueDiscItem) :
    queueView (updateFilter mix now q item).2 = queueView q ∧
    tableView (updateFilter mix now q item).2 = tableView q := by
  unfold updateFilter
  dsimp only
  split_ifs <;> exact ⟨rfl, rfl⟩

theorem DoDrop_tableView (q : HhfQueueDisc) : tableView (DoDrop q).2 = tableView q := by
  unfold DoDrop
  split
  · rfl
  · split <;> rfl

theorem pushToBucket_tableView (q : HhfQueueDisc) (idx : WdrrBucketIndex)
    (item : QueueDiscItem) : tableView (pushToBucket q idx item) = tableView q := by
  unfold pushToBucket
  dsimp only
  cases idx <;> split_ifs <;> rfl

theorem setBucket_tableView (q : HhfQueueDisc) (idx : WdrrBucketIndex) (b : WdrrBucket) :
    tableView (setBucket q idx b) = tableView q := by
  cases idx <;> rfl

theorem serveHead_tableView (q : HhfQueueDisc) (idx : WdrrBucketIndex)
    (restNew : List WdrrBucketIndex) (head : QueueDiscItem) (tail : List QueueDiscItem)
    (deficit : Int) : tableView (serveHead q idx restNew head tail deficit).2 = tableView q := by
  unfold serveHead
  dsimp only
  cases idx <;> split_ifs <;> rfl

theorem DoDequeueLoop_tableView (fuel : Nat) (q : HhfQueueDisc) :
    tableView (DoDequeueLoop fuel q).2 = tableView q := by
  induction fuel generalizing q with
  | zero => rfl
  | succ n ih =>
    unfold DoDequeueLoop
    split
    · split
      · rfl
      · rw [ih]
        rfl
    · split
      · rw [ih]
        rfl
      · dsimp only
        split_ifs
        · rw [ih]
          exact setBucket_tableView q _ _
        · exact serveHead_tableView _ _ _ _ _ _
        · exact serveHead_tableView _ _ _ _ _ _

/-! ## The flow table -/

theorem map_length_set_same {α : Type} (l : List (List α)) (i : Nat) (c : List α)
    (h : c.length = (l.getD i []).length) : (l.set i c).map List.length = l.map List.length := by
  induction l generalizing i with
  | nil => rfl
  | cons a rest ih =>
    cases i with
    | zero =>
      simp only [List.set_cons_zero, List.map_cons]
      rw [h]
      rfl
    | succ k =>
      simp only [List.set_cons_succ, List.map_cons]
      rw [ih k (by simpa using h)]

theorem sum_length_set_append {α : Type} (l : List (List α)) (i : Nat) (x : α)
    (h : i < l.length) :
    ((l.set i (l.getD i [] ++ [x])).map List.length).sum = (l.map List.length).sum + 1 := by
  induction l generalizing i with
  | nil => exact absurd h (Nat.not_lt_zero _)
  | cons a rest ih =>
    cases i with
    | zero =>
      simp only [List.set_cons_zero, List.map_cons, List.sum_cons, List.getD_cons_zero,
        List.length_append, List.length_singleton]
      omega
    | succ k =>
      have hk : k < rest.length := by simpa using h
      have := ih k hk
      simp only [List.set_cons_succ, List.map_cons, List.sum_cons, List.getD_cons_succ] at this ⊢
      omega

theorem tableInv_iff (q : HhfQueueDisc) :
    TableInv q ↔ (q.m_hhFlows.map List.length).sum = q.m_hhFlowsCurrentCnt ∧
      q.m_hhFlowsCurrentCnt ≤ q.m_hhFlowsLimit ∧ q.m_hhFlows.length = q.m_hhFlowsLimit :=
  Iff.rfl

theorem tableInv_of_tableView (q q1 : HhfQueueDisc) (h : tableView q1 = tableView q)
    (hq : TableInv q) : TableInv q1 := by
  unfold TableInv at *
  rw [h]
  exact hq

theorem setFlow_tableInv (q : HhfQueueDisc) (slot i : Nat) (e : FlowState) (hq : TableInv q) :
    TableInv (setFlow q slot i e) := by
  obtain ⟨h1, h2, h3⟩ := (tableInv_iff q).1 hq
  have hlen : ((q.m_hhFlows.getD slot []).set i e).length = (q.m_hhFlows.getD slot []).length :=
    List.length_set _ _ _
  refine ⟨?_, h2, ?_⟩
  · show ((q.m_hhFlows.set slot ((q.m_hhFlows.getD slot []).set i e)).map List.length).sum =
      q.m_hhFlowsCurrentCnt
    rw [map_length_set_same q.m_hhFlows slot _ hlen]
    exact h1
  · show (q.m_hhFlows.set slot ((q.m_hhFlows.getD slot []).set i e)).length = q.m_hhFlowsLimit
    rw [List.length_set]
    exact h3

theorem AllocNewHh_tableInv (q : HhfQueueDisc) (now slot : Nat) (hq : TableInv q)
    (hslot : 0 < q.m_hhFlowsLimit → slot < q.m_hhFlowsLimit) :
    TableInv (AllocNewHh q now slot).2 ∧
      (AllocNewHh q now slot).2.m_hhFlowsLimit = q.m_hhFlowsLimit := by
  obtain ⟨h1, h2, h3⟩ := (tableInv_iff q).1 hq
  unfold AllocNewHh
  dsimp only
  split_ifs with ha hb
  · exact ⟨⟨h1, h2, h3⟩, rfl⟩
  · have hs : slot < q.m_hhFlows.length := by
      rw [h3]
      exact hslot (by omega)
    refine ⟨⟨?_, ?_, ?_⟩, rfl⟩
    · show ((q.m_hhFlows.set slot (q.m_hhFlows.getD slot [] ++ [⟨0, 0⟩])).map List.length).sum =
        q.m_hhFlowsCurrentCnt + 1
      rw [sum_length_set_append q.m_hhFlows slot _ hs]
      exact congrArg (· + 1) h1
    · show q.m_hhFlowsCurrentCnt + 1 ≤ q.m_hhFlowsLimit
      omega
    · show (q.m_hhFlows.set slot (q.m_hhFlows.getD slot [] ++ [⟨0, 0⟩])).length = q.m_hhFlowsLimit
      rw [List.length_set]
      exact h3
  · exact ⟨⟨h1, h2, h3⟩, rfl⟩

theorem DoClassify_tableInv (mix : Nat → Nat → Nat) (now : Nat) (q : HhfQueueDisc)
    (item : QueueDiscItem) (hq : TableInv q) :
    TableInv (DoClassify mix now q item).2 ∧
      (DoClassify mix now q item).2.m_hhFlowsLimit = q.m_hhFlowsLimit := by
  have hf := (updateFilter_frame mix now q item).2
  have hq1 : TableInv (updateFilter mix now q item).2 := tableInv_of_tableView q _ hf hq
  have hl1 : (updateFilter mix now q item).2.m_hhFlowsLimit = q.m_hhFlowsLimit :=
    congrArg (fun v => v.2.2) hf
  unfold DoClassify
  dsimp only
  split
  · exact ⟨setFlow_tableInv _ _ _ _ hq1, hl1⟩
  · split_ifs
    · have ha := AllocNewHh_tableInv (updateFilter mix now q item).2 now
        (item.hash % (updateFilter mix now q item).2.m_hhFlowsLimit) hq1
        (fun hpos => Nat.mod_lt _ hpos)
      split
      · rename_i i q2 heq
        rw [heq] at ha
        exact ⟨setFlow_tableInv q2 _ i _ ha.1, ha.2.trans hl1⟩
      · rename_i q2 heq
        rw [heq] at ha
        exact ⟨ha.1, ha.2.trans hl1⟩
    · exact ⟨hq1, hl1⟩

theorem routeToBucket_tableView (q : HhfQueueDisc) (idx : WdrrBucketIndex)
    (item : QueueDiscItem) : tableView (routeToBucket q idx item).2 = tableView q := by
  unfold routeToBucket
  split_ifs
  · rfl
  · exact pushToBucket_tableView q idx item

theorem DoEnqueue_tableView (mix : Nat → Nat → Nat) (now : Nat) (q : HhfQueueDisc)
    (item : QueueDiscItem) :
    tableView (DoEnqueue mix now q item).2 = tableView (DoClassify mix now q item).2 := by
  have hr := routeToBucket_tableView (DoClassify mix now q item).2
    (DoClassify mix now q item).1 item
  unfold DoEnqueue
  dsimp only
  split_ifs
  · exact (DoDrop_tableView _).trans hr
  · exact hr

/-- The invariant of the flow table holds in every reachable state, and the capacity is the
one given at initialization. -/
theorem reachable_tableInv (mix : Nat → Nat → Nat) (N : Nat) (q : HhfQueueDisc)
    (h : Reachable mix N q) : TableInv q ∧ q.m_hhFlowsLimit = N := by
  induction h with
  | init cfg =>
    refine ⟨⟨?_, Nat.zero_le _, ?_⟩, rfl⟩
    · show ((List.replicate N ([] : List FlowState)).map List.length).sum = 0
      simp
    · show (List.replicate N ([] : List FlowState)).length = N
      simp
  | classify q now item _ ih =>
    have hc := DoClassify_tableInv mix now q item ih.1
    exact ⟨hc.1, hc.2.trans ih.2⟩
  | enqueue q now item _ ih =>
    have hc := DoClassify_tableInv mix now q item ih.1
    have hv := DoEnqueue_tableView mix now q item
    exact ⟨tableInv_of_tableView _ _ hv hc.1,
      (congrArg (fun v => v.2.2) hv).trans (hc.2.trans ih.2)⟩
  | dequeue q fuel _ ih =>
    have hv := DoDequeueLoop_tableView fuel q
    exact ⟨tableInv_of_tableView _ _ hv ih.1, (congrArg (fun v => v.2.2) hv).trans ih.2⟩

theorem updateFilter_eq (mix : Nat → Nat → Nat) (now : Nat) (q : HhfQueueDisc)
    (item : QueueDiscItem) :
    ∃ arrays epoch ts, (updateFilter mix now q item).2 =
      { q with m_counterArrays := arrays, m_epoch := epoch, m_arraysResetTimestamp := ts } := by
  unfold updateFilter
  dsimp only
  split_ifs
  · exact ⟨_, _, _, rfl⟩
  · exact ⟨_, _, _, rfl⟩

theorem SeekList_none (hash : Nat) (chain : List FlowState)
    (h : ∀ e ∈ chain, e.hashId ≠ hash) : SeekList hash chain = none := by
  unfold SeekList
  dsimp only
  have : chain.findIdx (fun e => e.hashId == hash) = chain.length := by
    apply List.findIdx_eq_length_of_false
    intro e he
    simpa using h e he
  rw [this]
  simp

/-- A new flow with a heavy verdict is not admitted when the table is at capacity and no
entry of its chain is aged. -/
theorem DoClassify_full (mix : Nat → Nat → Nat) (now : Nat) (q : HhfQueueDisc)
    (item : QueueDiscItem)
    (hheavy : (updateFilter mix now q item).1 > q.m_admitBytes)
    (hfull : q.m_hhFlowsLimit ≤ q.m_hhFlowsCurrentCnt)
    (hnew : ∀ e ∈ q.m_hhFlows.getD (item.hash % q.m_hhFlowsLimit) [], e.hashId ≠ item.hash)
    (hfresh : ∀ e ∈ q.m_hhFlows.getD (item.hash % q.m_hhFlowsLimit) [],
      ¬ (e.hitTimeStamp + q.m_evictTimeout < now)) :
    (DoClassify mix now q item).1 = .WDRR_BUCKET_FOR_NON_HH ∧
    (DoClassify mix now q item).2.m_hhFlows = q.m_hhFlows ∧
    (DoClassify mix now q item).2.m_hhFlowsCurrentCnt = q.m_hhFlowsCurrentCnt ∧
    (DoClassify mix now q item).2.m_hhFlowsOverLimit = q.m_hhFlowsOverLimit + 1 := by
  obtain ⟨arrays, epoch, ts, hu⟩ := updateFilter_eq mix now q item
  unfold DoClassify
  dsimp only
  generalize (updateFilter mix now q item).1 = est at hheavy ⊢
  rw [hu]
  dsimp only
  rw [SeekList_none _ _ hnew]
  dsimp only
  rw [if_pos hheavy]
  have hidx : (q.m_hhFlows.getD (item.hash % q.m_hhFlowsLimit) []).findIdx
      (aged { q with m_counterArrays := arrays, m_epoch := epoch,
                     m_arraysResetTimestamp := ts } now) =
      (q.m_hhFlows.getD (item.hash % q.m_hhFlowsLimit) []).length := by
    apply List.findIdx_eq_length_of_false
    intro e he
    simpa [aged] using hfresh e he
  unfold AllocNewHh
  dsimp only
  rw [hidx, if_neg (Nat.lt_irrefl _), if_neg (Nat.not_lt.mpr hfull)]
  exact ⟨rfl, rfl, rfl, rfl⟩

/-- C4: in every state reachable by classifying (and enqueueing and dequeueing) packets, the
number of currently admitted heavy-hitter flows `m_hhFlowsCurrentCnt` is the number of entries
of the flow table and never exceeds the capacity `N`; and a new flow that crosses the
threshold when the count is already at capacity and no entry of its chain has aged past the
eviction timeout is not admitted: it goes to the non-heavy-hitter bucket, the table and the
count are unchanged, and the overflow counter is incremented. -/
theorem admitted_flows_never_exceed_capacity (mix : Nat → Nat → Nat) (N : Nat)
    (q : HhfQueueDisc) (h : Reachable mix N q) :
    q.m_hhFlowsCurrentCnt ≤ N ∧
    tableEntries q = q.m_hhFlowsCurrentCnt ∧
    (∀ (now : Nat) (item : QueueDiscItem),
      (updateFilter mix now q item).1 > q.m_admitBytes →
      N ≤ q.m_hhFlowsCurrentCnt →
      (∀ e ∈ q.m_hhFlows.getD (item.hash % N) [], e.hashId ≠ item.hash) →
      (∀ e ∈ q.m_hhFlows.getD (item.hash % N) [],
        ¬ (e.hitTimeStamp + q.m_evictTimeout < now)) →
      (DoClassify mix now q item).1 = .WDRR_BUCKET_FOR_NON_HH ∧
      (DoClassify mix now q item).2.m_hhFlows = q.m_hhFlows ∧
      (DoClassify mix now q item).2.m_hhFlowsCurrentCnt = q.m_hhFlowsCurrentCnt ∧
      (DoClassify mix now q item).2.m_hhFlowsOverLimit = q.m_hhFlowsOverLimit + 1) := by
  obtain ⟨hinv, hN⟩ := reachable_tableInv mix N q h
  obtain ⟨h1, h2, _⟩ := (tableInv_iff q).1 hinv
  refine ⟨by omega, h1, ?_⟩
  intro now item hheavy hfull hnew hfresh
  rw [← hN] at hfull hnew hfresh
  exact DoClassify_full mix now q item hheavy hfull hnew hfresh

/-! ## The queued size -/

theorem DoDrop_queue (q : HhfQueueDisc) :
    (DoDrop q).2.m_mode = q.m_mode ∧ (DoDrop q).2.m_limit = q.m_limit ∧
    GetNPackets (DoDrop q).2 = GetNPackets q - 1 ∧
    (∀ p, p ∈ (DoDrop q).2.m_bucketHh.packetQueue ++ (DoDrop q).2.m_bucketNonHh.packetQueue →
      p ∈ q.m_bucketHh.packetQueue ++ q.m_bucketNonHh.packetQueue) := by
  unfold DoDrop GetNPackets
  split
  · rename_i p rest heq
    refine ⟨rfl, rfl, ?_, ?_⟩
    · dsimp only
      rw [heq]
      simp only [List.length_cons]
      omega
    · intro x hx
      dsimp only at hx
      rw [heq]
      simp only [List.mem_append, List.mem_cons] at hx ⊢
      rcases hx with hx | hx
      · exact Or.inl (Or.inr hx)
      · exact Or.inr hx
  · rename_i heq
    split
    · rename_i p rest heq2
      refine ⟨rfl, rfl, ?_, ?_⟩
      · dsimp only
        rw [heq, heq2]
        simp only [List.length_cons, List.length_nil]
        omega
      · intro x hx
        dsimp only at hx
        rw [heq2]
        simp only [List.mem_append, List.mem_cons] at hx ⊢
        rcases hx with hx | hx
        · exact Or.inl hx
        · exact Or.inr (Or.inr hx)
    · rename_i heq2
      refine ⟨rfl, rfl, ?_, fun x hx => hx⟩
      rw [heq, heq2]
      rfl

/-- Every state of `Reachable` is reached with no condition on the packets. -/
theorem reachableSized_of_reachable (mix : Nat → Nat → Nat) (N : Nat) (q : HhfQueueDisc)
    (h : Reachable mix N q) : ReachableSized mix N (fun _ => True) q := by
  induction h with
  | init cfg => exact ReachableSized.init cfg
  | classify q now item _ ih => exact ReachableSized.classify q now item ih
  | enqueue q now item _ ih => exact ReachableSized.enqueue q now item ih trivial
  | dequeue q fuel _ ih => exact ReachableSized.dequeue q fuel ih

theorem packetsOne_reachable : Reachable exampleMix 1 packetsOne :=
  Reachable.enqueue packetsInit 0 ⟨1500, 7⟩ (Reachable.init packetsConfig)

/-- C3: `DoDrop` removes exactly one packet (when the queue disc holds one): the head of the
FIFO of the heavy-hitter bucket whenever that FIFO is non-empty, the head of the FIFO of the
non-heavy-hitter bucket only when the heavy-hitter FIFO is empty; and it returns the index
(`WDRR_BUCKET_FOR_HH = 0` or `WDRR_BUCKET_FOR_NON_HH = 1`) of the bucket the packet was
dropped from. -/
theorem DoDrop_removes_one_head_packet (q : HhfQueueDisc) (h : 0 < GetNPackets q) :
    GetNPackets (DoDrop q).2 + 1 = GetNPackets q ∧
    (∀ p rest, q.m_bucketHh.packetQueue = p :: rest →
      DoDrop q = (0, { q with m_bucketHh := { q.m_bucketHh with packetQueue := rest } })) ∧
    (∀ p rest, q.m_bucketHh.packetQueue = [] → q.m_bucketNonHh.packetQueue = p :: rest →
      DoDrop q = (1, { q with m_bucketNonHh := { q.m_bucketNonHh with packetQueue := rest } })) ∧
    ((DoDrop q).2.m_bucketNonHh.packetQueue ≠ q.m_bucketNonHh.packetQueue →
      q.m_bucketHh.packetQueue = []) ∧
    WdrrBucketIndex.WDRR_BUCKET_FOR_HH.toNat = 0 ∧
    WdrrBucketIndex.WDRR_BUCKET_FOR_NON_HH.toNat = 1 := by
  refine ⟨?_, ?_, ?_, ?_, rfl, rfl⟩
  · have := (DoDrop_queue q).2.2
    omega
  · intro p rest hp
    unfold DoDrop
    rw [hp]
    rfl
  · intro p rest hh hp
    unfold DoDrop
    rw [hh]
    dsimp only
    rw [hp]
    rfl
  · intro hne
    cases hh : q.m_bucketHh.packetQueue with
    | nil => rfl
    | cons p rest =>
      exfalso
      apply hne
      unfold DoDrop
      rw [hh]

theorem DoDrop_removes_one_head_packet_witness :
    0 < GetNPackets packetsOne ∧
    (GetNPackets (DoDrop packetsOne).2 + 1 = GetNPackets packetsOne ∧
    (∀ p rest, packetsOne.m_bucketHh.packetQueue = p :: rest →
      DoDrop packetsOne =
        (0, { packetsOne with
              m_bucketHh := { packetsOne.m_bucketHh with packetQueue := rest } })) ∧
    (∀ p rest, packetsOne.m_bucketHh.packetQueue = [] →
      packetsOne.m_bucketNonHh.packetQueue = p :: rest →
      DoDrop packetsOne =
        (1, { packetsOne with
              m_bucketNonHh := { packetsOne.m_bucketNonHh with packetQueue := rest } })) ∧
    ((DoDrop packetsOne).2.m_bucketNonHh.packetQueue ≠ packetsOne.m_bucketNonHh.packetQueue →
      packetsOne.m_bucketHh.packetQueue = []) ∧
    WdrrBucketIndex.WDRR_BUCKET_FOR_HH.toNat = 0 ∧
    WdrrBucketIndex.WDRR_BUCKET_FOR_NON_HH.toNat = 1) :=
  ⟨by decide, DoDrop_removes_one_head_packet packetsOne (by decide)⟩

theorem admitted_flows_never_exceed_capacity_witness :
    Reachable exampleMix 1 packetsOne ∧
    packetsOne.m_hhFlowsCurrentCnt = 1 ∧
    (packetsOne.m_hhFlowsCurrentCnt ≤ 1 ∧
    tableEntries packetsOne = packetsOne.m_hhFlowsCurrentCnt ∧
    (∀ (now : Nat) (item : QueueDiscItem),
      (updateFilter exampleMix now packetsOne item).1 > packetsOne.m_admitBytes →
      1 ≤ packetsOne.m_hhFlowsCurrentCnt →
      (∀ e ∈ packetsOne.m_hhFlows.getD (item.hash % 1) [], e.hashId ≠ item.hash) →
      (∀ e ∈ packetsOne.m_hhFlows.getD (item.hash % 1) [],
        ¬ (e.hitTimeStamp + packetsOne.m_evictTimeout < now)) →
      (DoClassify exampleMix now packetsOne item).1 = .WDRR_BUCKET_FOR_NON_HH ∧
      (DoClassify exampleMix now packetsOne item).2.m_hhFlows = packetsOne.m_hhFlows ∧
      (DoClassify exampleMix now packetsOne item).2.m_hhFlowsCurrentCnt =
        packetsOne.m_hhFlowsCurrentCnt ∧
      (DoClassify exampleMix now packetsOne item).2.m_hhFlowsOverLimit =
        packetsOne.m_hhFlowsOverLimit + 1)) :=
  ⟨packetsOne_reachable, by decide,
   admitted_flows_never_exceed_capacity exampleMix 1 packetsOne packetsOne_reachable⟩

/-- C9: `HHF_BIT_MASK = 2^HHF_BIT_MASK_LEN - 1 = HHF_ARRAYS_LEN - 1`; the masked index
`x AND HHF_BIT_MASK` of every 32-bit unsigned value `x` is strictly below `HHF_ARRAYS_LEN`,
and every index in `0 .. HHF_ARRAYS_LEN - 1` is the masked index of some 32-bit unsigned
value. -/
theorem hhf_bit_mask_covers_array :
    HHF_BIT_MASK = 2 ^ HHF_BIT_MASK_LEN - 1 ∧
    HHF_BIT_MASK = HHF_ARRAYS_LEN - 1 ∧
    (∀ x : Nat, x < 2 ^ 32 → maskedIndex x < HHF_ARRAYS_LEN) ∧
    (∀ i : Nat, i < HHF_ARRAYS_LEN → ∃ x : Nat, x < 2 ^ 32 ∧ maskedIndex x = i) := by
  have hmask : ∀ x : Nat, maskedIndex x = x % 1024 := by
    intro x
    have h := Nat.and_pow_two_sub_one_eq_mod x 10
    simpa [maskedIndex, HHF_BIT_MASK] using h
  refine ⟨by decide, by decide, ?_, ?_⟩
  · intro x _
    rw [hmask]
    exact Nat.mod_lt x (by decide)
  · intro i hi
    refine ⟨i, ?_, ?_⟩
    · have : HHF_ARRAYS_LEN = 1024 := rfl
      omega
    · rw [hmask]
      exact Nat.mod_eq_of_lt hi

theorem hhf_bit_mask_covers_array_witness :
    maskedIndex 4294967295 < HHF_ARRAYS_LEN ∧
    (∃ x : Nat, x < 2 ^ 32 ∧ maskedIndex x = 1023) :=
  ⟨hhf_bit_mask_covers_array.2.2.1 4294967295 (by decide),
   hhf_bit_mask_covers_array.2.2.2 1023 (by decide)⟩

end Hhf

/-! # Properties of the token bucket filter queue disc -/

namespace Tbf

theorem toInt64_of_range (x : Int) (h1 : -9223372036854775808 ≤ x) (h2 : x < 9223372036854775808) :
    toInt64 x = x := by
  unfold toInt64
  omega

theorem toUInt64_lt (x : Int) : toUInt64 x < 2 ^ 64 := by
  unfold toUInt64
  omega

theorem toUInt64_small_iff (x : Int) (h1 : -9223372036854775808 ≤ x)
    (h2 : x < 9223372036854775808) : toUInt64 x < 2 ^ 63 ↔ 0 ≤ x := by
  unfold toUInt64
  omega

theorem testBit63_of_ge (a : Nat) (h1 : 2 ^ 63 ≤ a) (h2 : a < 2 ^ 64) : a.testBit 63 = true := by
  obtain ⟨c, rfl⟩ := Nat.exists_eq_add_of_le h1
  have hc : c < 2 ^ 63 := by omega
  rw [Nat.testBit_two_pow_add_eq, Nat.testBit_lt_two_pow hc]
  rfl

theorem or_small_iff (a b : Nat) (ha : a < 2 ^ 64) (hb : b < 2 ^ 64) :
    a ||| b < 2 ^ 63 ↔ a < 2 ^ 63 ∧ b < 2 ^ 63 := by
  constructor
  · intro h
    have hbit : (a ||| b).testBit 63 = false := Nat.testBit_lt_two_pow h
    rw [Nat.testBit_or, Bool.or_eq_false_iff] at hbit
    constructor
    · by_contra hlt
      have := testBit63_of_ge a (by omega) ha
      rw [hbit.1] at this
      exact Bool.noConfusion this
    · by_contra hlt
      have := testBit63_of_ge b (by omega) hb
      rw [hbit.2] at this
      exact Bool.noConfusion this
  · rintro ⟨h1, h2⟩
    exact Nat.or_lt_two_pow h1 h2

/-- The sign of the bitwise OR of two 64-bit signed values. -/
theorem or64_nonneg_iff (x y : Int)
    (hx1 : -9223372036854775808 ≤ x) (hx2 : x < 9223372036854775808)
    (hy1 : -9223372036854775808 ≤ y) (hy2 : y < 9223372036854775808) :
    0 ≤ or64 x y ↔ 0 ≤ x ∧ 0 ≤ y := by
  have ha := toUInt64_lt x
  have hb := toUInt64_lt y
  have hor : toUInt64 x ||| toUInt64 y < 2 ^ 64 := Nat.or_lt_two_pow ha hb
  have hsmall := or_small_iff _ _ ha hb
  rw [toUInt64_small_iff x hx1 hx2, toUInt64_small_iff y hy1 hy2] at hsmall
  rw [← hsmall]
  unfold or64 toInt64
  generalize toUInt64 x ||| toUInt64 y = n at *
  simp only [Int.ofNat_eq_coe]
  omega

theorem getSize_lt (item : QueueDiscItem) : item.GetSize < 4294967296 := by
  unfold QueueDiscItem.GetSize
  omega

theorem DoPeek_eq_some (q : TbfQueueDisc) (item : QueueDiscItem) :
    DoPeek q = some item ↔ ∃ rest, (GetInternalQueue q 0).packets = item :: rest := by
  unfold DoPeek InternalQueue.IsEmpty InternalQueue.Peek
  cases hp : (GetInternalQueue q 0).packets with
  | nil => simp
  | cons a rest => simp

theorem DoPeek_eq_none (q : TbfQueueDisc) :
    DoPeek q = none ↔ (GetInternalQueue q 0).packets = [] := by
  unfold DoPeek InternalQueue.IsEmpty InternalQueue.Peek
  cases hp : (GetInternalQueue q 0).packets with
  | nil => simp
  | cons a rest => simp

/-- The first balance, when the increment fits: the clamped sum minus the packet size. -/
theorem computeBtoks_eq (q : TbfQueueDisc) (size incB : Nat) (hq : WellFormed q)
    (hs : size < 4294967296) (hB : incB < 4611686018427387904) :
    computeBtoks q (size : Int) incB = ((min (q.m_btokens + incB) q.m_burst : Nat) : Int) - size := by
  have h1 := hq.btokens_lt
  have h2 := hq.burst_lt
  unfold computeBtoks
  simp only []
  rw [toInt64_of_range ((q.m_btokens : Int) + (incB : Int)) (by omega) (by omega)]
  split_ifs with h
  · rw [toInt64_of_range _ (by omega) (by omega)]
    omega
  · rw [toInt64_of_range _ (by omega) (by omega)]
    omega

/-- The second balance, when the peak bucket is enabled and the increment fits. -/
theorem computePtoks_eq (q : TbfQueueDisc) (size incP : Nat) (hq : WellFormed q)
    (hs : size < 4294967296) (hP : incP < 4611686018427387904)
    (hpeak : q.m_mtu > 0 ∧ q.m_peakRate > 0) :
    computePtoks q (size : Int) incP = ((min (q.m_ptokens + incP) q.m_mtu : Nat) : Int) - size := by
  have h1 := hq.ptokens_lt
  have h2 := hq.mtu_lt
  unfold computePtoks
  rw [if_pos hpeak]
  simp only []
  rw [toInt64_of_range ((q.m_ptokens : Int) + (incP : Int)) (by omega) (by omega)]
  split_ifs with h
  · rw [toInt64_of_range _ (by omega) (by omega)]
    omega
  · rw [toInt64_of_range _ (by omega) (by omega)]
    omega

theorem computePtoks_disabled (q : TbfQueueDisc) (size : Int) (incP : Nat)
    (hpeak : ¬ (q.m_mtu > 0 ∧ q.m_peakRate > 0)) : computePtoks q size incP = 0 := by
  unfold computePtoks
  rw [if_neg hpeak]

theorem computeBtoks_range (q : TbfQueueDisc) (size incB : Nat) (hq : WellFormed q)
    (hs : size < 4294967296) (hB : incB < 4611686018427387904) :
    -4294967296 < computeBtoks q (size : Int) incB ∧
      computeBtoks q (size : Int) incB ≤ (q.m_burst : Int) := by
  rw [computeBtoks_eq q size incB hq hs hB]
  omega

theorem computePtoks_range (q : TbfQueueDisc) (size incP : Nat) (hq : WellFormed q)
    (hs : size < 4294967296) (hP : incP < 4611686018427387904) :
    -4294967296 < computePtoks q (size : Int) incP ∧
      computePtoks q (size : Int) incP ≤ (q.m_mtu : Int) := by
  by_cases hpeak : q.m_mtu > 0 ∧ q.m_peakRate > 0
  · rw [computePtoks_eq q size incP hq hs hP hpeak]
    omega
  · rw [computePtoks_disabled q _ incP hpeak]
    omega

/-- The release test on the balances that `DoDequeue` computes. -/
theorem releaseTest_computed (q : TbfQueueDisc) (size incB incP : Nat) (hq : WellFormed q)
    (hs : size < 4294967296) (hB : incB < 4611686018427387904)
    (hP : incP < 4611686018427387904) :
    releaseTest (computeBtoks q (size : Int) incB) (computePtoks q (size : Int) incP) = true ↔
      0 ≤ computeBtoks q (size : Int) incB ∧ 0 ≤ computePtoks q (size : Int) incP := by
  have hb := computeBtoks_range q size incB hq hs hB
  have hp := computePtoks_range q size incP hq hs hP
  have h1 := hq.burst_lt
  have h2 := hq.mtu_lt
  unfold releaseTest
  rw [decide_eq_true_iff]
  exact or64_nonneg_iff _ _ (by omega) (by omega) (by omega) (by omega)

/-- The result of `DoDequeue` on an empty internal queue. -/
theorem DoDequeue_empty (q : TbfQueueDisc) (sim : Simulator) (incB incP : Nat)
    (h : DoPeek q = none) : DoDequeue q sim incB incP = (none, q, sim) := by
  unfold DoDequeue
  rw [h]

/-- The result of `DoDequeue` when the head packet is released. -/
theorem DoDequeue_release (q : TbfQueueDisc) (sim : Simulator) (incB incP : Nat)
    (item : QueueDiscItem) (rest : List QueueDiscItem)
    (h : (GetInternalQueue q 0).packets = item :: rest)
    (hr : releaseTest (computeBtoks q (item.GetSize : Int) incB)
      (computePtoks q (item.GetSize : Int) incP) = true) :
    DoDequeue q sim incB incP =
      (some item,
       { q with internalQueues :=
                  q.internalQueues.set 0 { GetInternalQueue q 0 with packets := rest },
                m_timeCheckPoint := sim.now,
                m_btokens := toUInt32 (computeBtoks q (item.GetSize : Int) incB),
                m_ptokens := toUInt32 (computePtoks q (item.GetSize : Int) incP) },
       sim) := by
  have hpeek : DoPeek q = some item := (DoPeek_eq_some q item).2 ⟨rest, h⟩
  unfold DoDequeue
  rw [hpeek]
  simp only [hr, if_true, InternalQueue.Dequeue, h, Simulator.Now]

/-- The result of `DoDequeue` when the head packet is blocked. -/
theorem DoDequeue_blocked (q : TbfQueueDisc) (sim : Simulator) (incB incP : Nat)
    (item : QueueDiscItem) (h : DoPeek q = some item)
    (hr : releaseTest (computeBtoks q (item.GetSize : Int) incB)
      (computePtoks q (item.GetSize : Int) incP) = false) :
    DoDequeue q sim incB incP =
      if sim.IsExpired q.m_id then
        (none,
         { q with m_id := (sim.Schedule (requiredDelayTime q
            (computeBtoks q (item.GetSize : Int) incB)
            (computePtoks q (item.GetSize : Int) incP))).1 },
         (sim.Schedule (requiredDelayTime q
            (computeBtoks q (item.GetSize : Int) incB)
            (computePtoks q (item.GetSize : Int) incP))).2)
      else (none, q, sim) := by
  unfold DoDequeue
  rw [h]
  simp only [hr, Bool.false_eq_true, if_false]

/-- The three outcomes of `DoDequeue`: nothing changes; the head packet is released; the head
packet is blocked and a wake-up is scheduled. -/
theorem DoDequeue_cases (q : TbfQueueDisc) (sim : Simulator) (incB incP : Nat) :
    DoDequeue q sim incB incP = (none, q, sim) ∨
    (∃ item rest, (GetInternalQueue q 0).packets = item :: rest ∧
        releaseTest (computeBtoks q (item.GetSize : Int) incB)
          (computePtoks q (item.GetSize : Int) incP) = true ∧
        DoDequeue q sim incB incP =
          (some item,
           { q with internalQueues :=
                      q.internalQueues.set 0 { GetInternalQueue q 0 with packets := rest },
                    m_timeCheckPoint := sim.now,
                    m_btokens := toUInt32 (computeBtoks q (item.GetSize : Int) incB),
                    m_ptokens := toUInt32 (computePtoks q (item.GetSize : Int) incP) },
           sim)) ∨
    (∃ item delay, DoPeek q = some item ∧
        releaseTest (computeBtoks q (item.GetSize : Int) incB)
          (computePtoks q (item.GetSize : Int) incP) = false ∧
        sim.IsExpired q.m_id = true ∧
        DoDequeue q sim incB incP =
          (none, { q with m_id := some sim.nextUid },
           { sim with nextUid := sim.nextUid + 1,
                      pending := sim.pending ++ [⟨sim.nextUid, sim.now + delay⟩] })) := by
  rcases Option.eq_none_or_eq_some (DoPeek q) with hpeek | ⟨item, hpeek⟩
  · exact Or.inl (DoDequeue_empty q sim incB incP hpeek)
  · obtain ⟨rest, hrest⟩ := (DoPeek_eq_some q item).1 hpeek
    rcases Bool.eq_false_or_eq_true (releaseTest (computeBtoks q (item.GetSize : Int) incB)
        (computePtoks q (item.GetSize : Int) incP)) with hr | hr
    · exact Or.inr (Or.inl ⟨item, rest, hrest, hr,
        DoDequeue_release q sim incB incP item rest hrest hr⟩)
    · have hb := DoDequeue_blocked q sim incB incP item hpeek hr
      rcases Bool.eq_false_or_eq_true (sim.IsExpired q.m_id) with hexp | hexp
      · rw [hexp, if_pos rfl] at hb
        exact Or.inr (Or.inr ⟨item, _, hpeek, hr, hexp, hb⟩)
      · rw [hexp] at hb
        exact Or.inl hb

theorem toUInt32_lt (x : Int) : toUInt32 x < 4294967296 := by
  unfold toUInt32
  omega

/-- `DoEnqueue` only changes the internal queue. -/
theorem DoEnqueue_wellFormed (q : TbfQueueDisc) (item : QueueDiscItem) (hw : WellFormed q) :
    WellFormed (DoEnqueue q item).2 := by
  unfold DoEnqueue
  exact ⟨hw.limit_lt, hw.burst_lt, hw.mtu_lt, hw.btokens_lt, hw.ptokens_lt, hw.rate_lt,
    hw.peakRate_lt, hw.devMtu_lt⟩

theorem InitializeParams_wellFormed (q : TbfQueueDisc) (h : WellFormed q) :
    WellFormed (InitializeParams q) := by
  exact ⟨h.limit_lt, h.burst_lt, h.mtu_lt, h.burst_lt, h.mtu_lt, h.rate_lt, h.peakRate_lt,
    h.devMtu_lt⟩

/-- On a release the stored tokens are the computed balances, which are non-negative. -/
theorem release_store (q : TbfQueueDisc) (item : QueueDiscItem) (incB incP : Nat)
    (hw : WellFormed q) (hB : incB < 4611686018427387904) (hP : incP < 4611686018427387904)
    (hr : releaseTest (computeBtoks q (item.GetSize : Int) incB)
      (computePtoks q (item.GetSize : Int) incP) = true) :
    0 ≤ computeBtoks q (item.GetSize : Int) incB ∧
    0 ≤ computePtoks q (item.GetSize : Int) incP ∧
    ((toUInt32 (computeBtoks q (item.GetSize : Int) incB) : Nat) : Int) =
      computeBtoks q (item.GetSize : Int) incB ∧
    ((toUInt32 (computePtoks q (item.GetSize : Int) incP) : Nat) : Int) =
      computePtoks q (item.GetSize : Int) incP ∧
    toUInt32 (computeBtoks q (item.GetSize : Int) incB) ≤ q.m_burst ∧
    toUInt32 (computePtoks q (item.GetSize : Int) incP) ≤ q.m_mtu := by
  have hsz := getSize_lt item
  have hbr := computeBtoks_range q item.GetSize incB hw hsz hB
  have hpr := computePtoks_range q item.GetSize incP hw hsz hP
  have hnn := (releaseTest_computed q item.GetSize incB incP hw hsz hB hP).1 hr
  have h1 := hw.burst_lt
  have h2 := hw.mtu_lt
  generalize computeBtoks q (item.GetSize : Int) incB = b at *
  generalize computePtoks q (item.GetSize : Int) incP = p at *
  unfold toUInt32
  omega

/-- `DoDequeue` keeps the invariant of the token fields. -/
theorem DoDequeue_tokensInv (q : TbfQueueDisc) (sim : Simulator) (incB incP : Nat)
    (hB : incB < 4611686018427387904) (hP : incP < 4611686018427387904) (hq : TokensInv q) :
    TokensInv (DoDequeue q sim incB incP).2.1 := by
  obtain ⟨hw, hb, hp⟩ := hq
  rcases DoDequeue_cases q sim incB incP with h | ⟨item, rest, _, hr, h⟩ |
    ⟨item, delay, _, _, _, h⟩
  · rw [h]
    exact ⟨hw, hb, hp⟩
  · rw [h]
    obtain ⟨_, _, _, _, e1, e2⟩ := release_store q item incB incP hw hB hP hr
    refine ⟨⟨hw.limit_lt, hw.burst_lt, hw.mtu_lt, ?_, ?_,
      hw.rate_lt, hw.peakRate_lt, hw.devMtu_lt⟩, ?_, ?_⟩
    · dsimp only
      exact toUInt32_lt (computeBtoks q (item.GetSize : Int) incB)
    · dsimp only
      exact toUInt32_lt (computePtoks q (item.GetSize : Int) incP)
    · dsimp only
      exact e1
    · dsimp only
      exact e2
  · rw [h]
    unfold TokensInv
    dsimp only
    exact ⟨⟨hw.limit_lt, hw.burst_lt, hw.mtu_lt, hw.btokens_lt, hw.ptokens_lt, hw.rate_lt,
      hw.peakRate_lt, hw.devMtu_lt⟩, hb, hp⟩

/-- The invariant of the token fields holds in every reachable state. -/
theorem reachable_tokens (s : System) (hs : Reachable s) : TokensInv s.disc := by
  induction hs with
  | init q now nextUid h =>
    exact ⟨InitializeParams_wellFormed q h, Nat.le_refl _, Nat.le_refl _⟩
  | advance s t _ _ ih => exact ih
  | run s e _ _ ih => exact ih
  | enqueue s item _ ih =>
    obtain ⟨hw, hb, hp⟩ := ih
    exact ⟨DoEnqueue_wellFormed s.disc item hw, hb, hp⟩
  | dequeue s incB incP _ hB hP ih =>
    exact DoDequeue_tokensInv s.disc s.sim incB incP hB hP ih

/-- The pending wake-ups of a reachable state: none, or exactly the one that `m_id` refers
to. -/
theorem reachable_pending (s : System) (hs : Reachable s) :
    s.sim.pending = [] ∨ ∃ e, s.sim.pending = [e] ∧ s.disc.m_id = some e.uid := by
  induction hs with
  | init q now nextUid h => exact Or.inl rfl
  | advance s t _ _ ih => exact ih
  | run s e _ he ih =>
    rcases ih with h0 | ⟨e1, h1, _⟩
    · rw [h0] at he
      exact absurd he (List.not_mem_nil e)
    · left
      rw [h1] at he
      have : e = e1 := by simpa using he
      subst this
      simp [h1]
  | enqueue s item _ ih => exact ih
  | dequeue s incB incP _ _ _ ih =>
    rcases DoDequeue_cases s.disc s.sim incB incP with h | ⟨item, rest, _, _, h⟩ | ⟨item, delay, _, _, hexp, h⟩
    · rw [h]
      exact ih
    · rw [h]
      exact ih
    · rw [h]
      right
      rcases ih with h0 | ⟨e1, h1, hid⟩
      · exact ⟨⟨s.sim.nextUid, s.sim.now + delay⟩, by simp [h0], rfl⟩
      · exfalso
        simp [Simulator.IsExpired, hid, h1] at hexp

theorem one_queue (l : List InternalQueue) (h : l.length = 1) : l = [l.getD 0 default] := by
  match l, h with
  | [a], _ => rfl

/-- The checks that follow the creation of the internal queue. -/
theorem checks_after_queue (q1 : TbfQueueDisc) (hc : GetNQueueDiscClasses q1 = 0)
    (hf : GetNPacketFilters q1 = 0) (hn : GetNInternalQueues q1 = 1)
    (hmode : ¬ (((GetInternalQueue q1 0).GetMode = .QUEUE_MODE_PACKETS ∧
              q1.m_mode = .QUEUE_DISC_MODE_BYTES) ∨
            ((GetInternalQueue q1 0).GetMode = .QUEUE_MODE_BYTES ∧
              q1.m_mode = .QUEUE_DISC_MODE_PACKETS)))
    (hcap : ¬ ((q1.m_mode = .QUEUE_DISC_MODE_PACKETS ∧
              (GetInternalQueue q1 0).GetMaxPackets < q1.m_limit) ∨
            (q1.m_mode = .QUEUE_DISC_MODE_BYTES ∧
              (GetInternalQueue q1 0).GetMaxBytes < q1.m_limit)))
    (q2 : TbfQueueDisc)
    (e1 : q2.nQueueDiscClasses = q1.nQueueDiscClasses)
    (e2 : q2.nPacketFilters = q1.nPacketFilters)
    (e3 : q2.internalQueues = q1.internalQueues)
    (e4 : q2.m_mode = q1.m_mode) (e5 : q2.m_limit = q1.m_limit)
    (h1 : ¬ (q2.m_mtu = 0 ∧ q2.m_peakRate > 0))
    (h2 : ¬ (q2.m_mtu ≠ 0 ∧ q2.m_peakRate = 0))
    (h3 : ¬ (q2.m_burst ≤ q2.m_mtu))
    (h4 : ¬ (q2.m_peakRate > 0 ∧ q2.m_peakRate ≤ q2.m_rate)) : ConfigOk q2 := by
  have h3' : q2.m_mtu < q2.m_burst := Nat.lt_of_not_le h3
  have h5 : (q2.m_mtu = 0 ∧ q2.m_peakRate = 0) ∨ (0 < q2.m_mtu ∧ q2.m_rate < q2.m_peakRate) := by
    by_cases hm : q2.m_mtu = 0
    · by_cases hp : q2.m_peakRate = 0
      · exact Or.inl ⟨hm, hp⟩
      · exact absurd ⟨hm, Nat.pos_of_ne_zero hp⟩ h1
    · by_cases hp : q2.m_peakRate = 0
      · exact absurd ⟨hm, hp⟩ h2
      · right
        refine ⟨Nat.pos_of_ne_zero hm, ?_⟩
        by_contra hle
        exact h4 ⟨Nat.pos_of_ne_zero hp, Nat.le_of_not_lt hle⟩
  refine ⟨?_, ?_, ⟨GetInternalQueue q1 0, ?_, ?_, ?_⟩, h3', h5⟩
  · unfold GetNQueueDiscClasses at *
    omega
  · unfold GetNPacketFilters at *
    omega
  · rw [e3]
    exact one_queue q1.internalQueues hn
  · rw [e4]
    cases hm : q1.m_mode <;> cases hg : (GetInternalQueue q1 0).GetMode
    · rfl
    · exact absurd (Or.inr ⟨hg, hm⟩) hmode
    · exact absurd (Or.inl ⟨hg, hm⟩) hmode
    · rfl
  · rw [e4, e5]
    cases hm : q1.m_mode with
    | QUEUE_DISC_MODE_PACKETS =>
      show q1.m_limit ≤ (GetInternalQueue q1 0).GetMaxPackets
      by_contra hlt
      exact hcap (Or.inl ⟨hm, by omega⟩)
    | QUEUE_DISC_MODE_BYTES =>
      show q1.m_limit ≤ (GetInternalQueue q1 0).GetMaxBytes
      by_contra hlt
      exact hcap (Or.inr ⟨hm, by omega⟩)


/-- C1: whenever `CheckConfig` returns true, the queue disc has no classes and no packet
filters, exactly one internal queue, whose mode is the mode of the queue disc and whose
capacity in that unit is at least `m_limit`, `m_burst > m_mtu` (with `m_mtu` as left by
`CheckConfig`, possibly filled in from the net device), and the peak bucket is either fully
disabled (`m_mtu = 0` and peak rate 0) or fully enabled (`m_mtu > 0` and peak rate above
`m_rate`). -/
theorem CheckConfig_true_implies_valid (q : TbfQueueDisc) (h : (CheckConfig q).1 = true) :
    GetNQueueDiscClasses (CheckConfig q).2 = 0 ∧
    GetNPacketFilters (CheckConfig q).2 = 0 ∧
    (∃ iq, (CheckConfig q).2.internalQueues = [iq] ∧
      iq.GetMode = (CheckConfig q).2.m_mode.toQueueMode ∧
      (CheckConfig q).2.m_limit ≤ capacityIn iq (CheckConfig q).2.m_mode) ∧
    (CheckConfig q).2.m_mtu < (CheckConfig q).2.m_burst ∧
    (((CheckConfig q).2.m_mtu = 0 ∧ (CheckConfig q).2.m_peakRate = 0) ∨
      (0 < (CheckConfig q).2.m_mtu ∧ (CheckConfig q).2.m_rate < (CheckConfig q).2.m_peakRate)) := by
  show ConfigOk (CheckConfig q).2
  revert h
  unfold CheckConfig
  simp only []
  split_ifs with c1 c2 c3 c4 c5 c6 c7 c8 c9
  all_goals first
    | (intro h; exact False.elim h)
    | skip
  intro _
  dsimp only
  have hc : GetNQueueDiscClasses (createQueueIfNone q) = 0 := by
    have : GetNQueueDiscClasses (createQueueIfNone q) = GetNQueueDiscClasses q := by
      unfold createQueueIfNone AddInternalQueue GetNQueueDiscClasses
      split_ifs <;> rfl
    omega
  have hf : GetNPacketFilters (createQueueIfNone q) = 0 := by
    have : GetNPacketFilters (createQueueIfNone q) = GetNPacketFilters q := by
      unfold createQueueIfNone AddInternalQueue GetNPacketFilters
      split_ifs <;> rfl
    omega
  have hfill : ∀ q1 : TbfQueueDisc,
      (fillMtuFromDevice q1).nQueueDiscClasses = q1.nQueueDiscClasses ∧
      (fillMtuFromDevice q1).nPacketFilters = q1.nPacketFilters ∧
      (fillMtuFromDevice q1).internalQueues = q1.internalQueues ∧
      (fillMtuFromDevice q1).m_mode = q1.m_mode ∧
      (fillMtuFromDevice q1).m_limit = q1.m_limit := by
    intro q1
    unfold fillMtuFromDevice
    cases q1.netDevice with
    | none => exact ⟨rfl, rfl, rfl, rfl, rfl⟩
    | some d =>
      dsimp only
      split_ifs <;> exact ⟨rfl, rfl, rfl, rfl, rfl⟩
  obtain ⟨e1, e2, e3, e4, e5⟩ := hfill (createQueueIfNone q)
  exact checks_after_queue (createQueueIfNone q) hc hf (not_not.mp c3) c4 c5
    (fillMtuFromDevice (createQueueIfNone q)) e1 e2 e3 e4 e5 c6 c7 c8 c9

theorem exampleRunning_wellFormed : WellFormed exampleRunning :=
  ⟨by decide, by decide, by decide, by decide, by decide, by decide, by decide,
    fun m h => by simp [exampleRunning, exampleConfig] at h⟩

theorem afterInit_reachable : Reachable afterInit :=
  Reachable.init exampleRunning 0 0 exampleRunning_wellFormed

theorem afterRelease_reachable : Reachable afterRelease :=
  Reachable.dequeue afterInit 0 0 afterInit_reachable (by decide) (by decide)

theorem afterBlock_reachable : Reachable afterBlock :=
  Reachable.dequeue afterRelease 0 0 afterRelease_reachable (by decide) (by decide)

theorem roundNonneg_eq (x : ℚ) (n : Nat) (h1 : (n : ℚ) ≤ x + 1 / 2)
    (h2 : x + 1 / 2 < (n : ℚ) + 1) : roundNonneg x = n := by
  unfold roundNonneg
  have hfloor : Int.floor (x + 1 / 2) = (n : Int) := by
    rw [Int.floor_eq_iff]
    exact ⟨by exact_mod_cast h1, by exact_mod_cast h2⟩
  rw [hfloor]
  rfl

theorem pacedConfig_wellFormed : WellFormed pacedConfig :=
  ⟨by decide, by decide, by decide, by decide, by decide, by decide, by decide,
    fun m h => by simp [pacedConfig, pacedDisc] at h⟩

/-- The state `pacedDisc` is reached from full buckets: a packet of 50 bytes is released at
time 0, a packet of 45 bytes at time 9/20 s (the second bucket has then gained 45 tokens, the
first one none after rounding). -/
theorem pacedDisc_reachable : Reachable ⟨pacedDisc, pacedSim⟩ := by
  have h0 : Reachable ⟨InitializeParams pacedConfig, ⟨0, 0, []⟩⟩ :=
    Reachable.init pacedConfig 0 0 pacedConfig_wellFormed
  have e1 : DoDequeue (InitializeParams pacedConfig) ⟨0, 0, []⟩ 0 0 =
      (some ⟨50⟩, pacedMid, ⟨0, 0, []⟩) := by
    rw [DoDequeue_release _ _ 0 0 ⟨50⟩ [⟨45⟩, ⟨10⟩] (by decide) (by decide)]
    have hb : toUInt32 (computeBtoks (InitializeParams pacedConfig)
        ((⟨50⟩ : QueueDiscItem).GetSize : Int) 0) = 50 := by decide
    have hp : toUInt32 (computePtoks (InitializeParams pacedConfig)
        ((⟨50⟩ : QueueDiscItem).GetSize : Int) 0) = 0 := by decide
    rw [hb, hp]
    rfl
  have h1 : Reachable ⟨pacedMid, ⟨0, 0, []⟩⟩ := by
    have := Reachable.dequeue _ 0 0 h0 (by decide) (by decide)
    rw [e1] at this
    exact this
  have h2 : Reachable ⟨pacedMid, ⟨9 / 20, 0, []⟩⟩ :=
    Reachable.advance _ (9 / 20) h1 (by norm_num)
  have e2 : DoDequeue pacedMid ⟨9 / 20, 0, []⟩ 0 45 = (some ⟨45⟩, pacedDisc, pacedSim) := by
    rw [DoDequeue_release _ _ 0 45 ⟨45⟩ [⟨10⟩] (by decide) (by decide)]
    have hb : toUInt32 (computeBtoks pacedMid ((⟨45⟩ : QueueDiscItem).GetSize : Int) 0) = 5 := by
      decide
    have hp : toUInt32 (computePtoks pacedMid ((⟨45⟩ : QueueDiscItem).GetSize : Int) 45) = 0 := by
      decide
    rw [hb, hp]
    rfl
  have := Reachable.dequeue _ 0 45 h2 (by decide) (by decide)
  rw [e2] at this
  exact this

theorem CheckConfig_true_implies_valid_witness :
    (CheckConfig exampleConfig).1 = true ∧ ConfigOk (CheckConfig exampleConfig).2 :=
  ⟨by decide, CheckConfig_true_implies_valid exampleConfig (by decide)⟩

/-- C5: the token buckets start full and never exceed their sizes. After `InitializeParams`,
`m_btokens = m_burst` and `m_ptokens = m_mtu`; in every state reached from there (clock
advances, wake-ups, enqueues, and `DoDequeue` calls whose token increments are non-negative
integers below `2^62`), `m_btokens ≤ m_burst` and `m_ptokens ≤ m_mtu`; and whenever
`DoDequeue` releases a packet in such a state, the two balances it computed are non-negative
and the 32-bit token fields hold exactly these balances (the store does not wrap). -/
theorem token_buckets_start_full_and_stay_bounded (q0 : TbfQueueDisc) (s : System)
    (hs : Reachable s) (incB incP : Nat)
    (hB : incB < 4611686018427387904) (hP : incP < 4611686018427387904) :
    ((InitializeParams q0).m_btokens = q0.m_burst ∧
      (InitializeParams q0).m_ptokens = q0.m_mtu) ∧
    (s.disc.m_btokens ≤ s.disc.m_burst ∧ s.disc.m_ptokens ≤ s.disc.m_mtu) ∧
    (∀ item, (DoDequeue s.disc s.sim incB incP).1 = some item →
      0 ≤ computeBtoks s.disc (item.GetSize : Int) incB ∧
      0 ≤ computePtoks s.disc (item.GetSize : Int) incP ∧
      ((DoDequeue s.disc s.sim incB incP).2.1.m_btokens : Int) =
        computeBtoks s.disc (item.GetSize : Int) incB ∧
      ((DoDequeue s.disc s.sim incB incP).2.1.m_ptokens : Int) =
        computePtoks s.disc (item.GetSize : Int) incP) := by
  obtain ⟨hw, hb, hp⟩ := reachable_tokens s hs
  refine ⟨⟨rfl, rfl⟩, ⟨hb, hp⟩, ?_⟩
  intro item hitem
  rcases DoDequeue_cases s.disc s.sim incB incP with h | ⟨item1, rest, _, hr, h⟩ |
    ⟨item1, delay, _, _, _, h⟩
  · rw [h] at hitem
    exact absurd hitem (by simp)
  · rw [h] at hitem ⊢
    have hEq : item1 = item := by simpa using hitem
    subst hEq
    obtain ⟨n1, n2, s1, s2, _, _⟩ := release_store s.disc item1 incB incP hw hB hP hr
    dsimp only
    exact ⟨n1, n2, s1, s2⟩
  · rw [h] at hitem
    exact absurd hitem (by simp)

theorem token_buckets_start_full_and_stay_bounded_witness :
    Reachable afterInit ∧
    ((InitializeParams exampleRunning).m_btokens = exampleRunning.m_burst ∧
      (InitializeParams exampleRunning).m_ptokens = exampleRunning.m_mtu) ∧
    (afterInit.disc.m_btokens ≤ afterInit.disc.m_burst ∧
      afterInit.disc.m_ptokens ≤ afterInit.disc.m_mtu) ∧
    (∀ item, (DoDequeue afterInit.disc afterInit.sim 0 0).1 = some item →
      0 ≤ computeBtoks afterInit.disc (item.GetSize : Int) 0 ∧
      0 ≤ computePtoks afterInit.disc (item.GetSize : Int) 0 ∧
      ((DoDequeue afterInit.disc afterInit.sim 0 0).2.1.m_btokens : Int) =
        computeBtoks afterInit.disc (item.GetSize : Int) 0 ∧
      ((DoDequeue afterInit.disc afterInit.sim 0 0).2.1.m_ptokens : Int) =
        computePtoks afterInit.disc (item.GetSize : Int) 0) :=
  ⟨afterInit_reachable,
   token_buckets_start_full_and_stay_bounded exampleRunning afterInit afterInit_reachable 0 0
     (by decide) (by decide)⟩

/-- C6: at most one wake-up event scheduled by the queue disc is pending in every state reached
from `InitializeParams`, and a pending one is the event `m_id` refers to: `DoDequeue` changes
the pending wake-ups only by scheduling a new one in the blocked branch (a head packet is
present, the release test fails, no packet is returned) when the event stored in `m_id` has
expired. -/
theorem at_most_one_pending_wakeup (s : System) (hs : Reachable s) (incB incP : Nat) :
    s.sim.pending.length ≤ 1 ∧
    (∀ e ∈ s.sim.pending, s.disc.m_id = some e.uid) ∧
    ((DoDequeue s.disc s.sim incB incP).2.2.pending ≠ s.sim.pending →
      s.sim.IsExpired s.disc.m_id = true ∧
      (DoDequeue s.disc s.sim incB incP).1 = none ∧
      ∃ item, DoPeek s.disc = some item ∧
        releaseTest (computeBtoks s.disc (item.GetSize : Int) incB)
          (computePtoks s.disc (item.GetSize : Int) incP) = false) := by
  refine ⟨?_, ?_, ?_⟩
  · rcases reachable_pending s hs with h0 | ⟨e, h1, _⟩
    · simp [h0]
    · simp [h1]
  · intro e he
    rcases reachable_pending s hs with h0 | ⟨e1, h1, hid⟩
    · rw [h0] at he
      exact absurd he (List.not_mem_nil e)
    · rw [h1] at he
      have : e = e1 := by simpa using he
      rw [this]
      exact hid
  · intro hne
    rcases DoDequeue_cases s.disc s.sim incB incP with h | ⟨item1, rest, _, hr, h⟩ |
      ⟨item1, delay, hpeek, hr, hexp, h⟩
    · rw [h] at hne
      exact absurd rfl hne
    · rw [h] at hne
      exact absurd rfl hne
    · rw [h]
      exact ⟨hexp, rfl, item1, hpeek, hr⟩

theorem at_most_one_pending_wakeup_witness :
    Reachable afterBlock ∧
    (afterBlock.sim.pending.length ≤ 1 ∧
    (∀ e ∈ afterBlock.sim.pending, afterBlock.disc.m_id = some e.uid) ∧
    ((DoDequeue afterBlock.disc afterBlock.sim 0 0).2.2.pending ≠ afterBlock.sim.pending →
      afterBlock.sim.IsExpired afterBlock.disc.m_id = true ∧
      (DoDequeue afterBlock.disc afterBlock.sim 0 0).1 = none ∧
      ∃ item, DoPeek afterBlock.disc = some item ∧
        releaseTest (computeBtoks afterBlock.disc (item.GetSize : Int) 0)
          (computePtoks afterBlock.disc (item.GetSize : Int) 0) = false)) :=
  ⟨afterBlock_reachable, at_most_one_pending_wakeup afterBlock afterBlock_reachable 0 0⟩

/-- C10: for every pair of 64-bit signed balances, `(btoks | ptoks) >= 0` holds exactly when
`btoks >= 0` and `ptoks >= 0`; hence, on a non-empty internal queue, `DoDequeue` returns the
head packet if and only if `min (m_btokens + increment, m_burst)` is at least the packet size
and, when the peak bucket is enabled (`m_mtu > 0` and peak rate `> 0`),
`min (m_ptokens + peak increment, m_mtu)` is at least the packet size. -/
theorem release_iff_tokens_suffice (btoks ptoks : Int)
    (hb1 : -9223372036854775808 ≤ btoks) (hb2 : btoks < 9223372036854775808)
    (hp1 : -9223372036854775808 ≤ ptoks) (hp2 : ptoks < 9223372036854775808)
    (q : TbfQueueDisc) (sim : Simulator) (incB incP : Nat) (item : QueueDiscItem)
    (rest : List QueueDiscItem) (hq : WellFormed q)
    (hB : incB < 4611686018427387904) (hP : incP < 4611686018427387904)
    (hhead : (GetInternalQueue q 0).packets = item :: rest) :
    (0 ≤ or64 btoks ptoks ↔ 0 ≤ btoks ∧ 0 ≤ ptoks) ∧
    ((DoDequeue q sim incB incP).1 = some item ↔
      item.GetSize ≤ min (q.m_btokens + incB) q.m_burst ∧
      (q.m_mtu > 0 ∧ q.m_peakRate > 0 → item.GetSize ≤ min (q.m_ptokens + incP) q.m_mtu)) := by
  refine ⟨or64_nonneg_iff btoks ptoks hb1 hb2 hp1 hp2, ?_⟩
  have hsz := getSize_lt item
  have hrel := releaseTest_computed q item.GetSize incB incP hq hsz hB hP
  have hbe := computeBtoks_eq q item.GetSize incB hq hsz hB
  have hpeek : DoPeek q = some item := (DoPeek_eq_some q item).2 ⟨rest, hhead⟩
  have hsuff : (0 ≤ computeBtoks q (item.GetSize : Int) incB ∧
      0 ≤ computePtoks q (item.GetSize : Int) incP) ↔
      (item.GetSize ≤ min (q.m_btokens + incB) q.m_burst ∧
      (q.m_mtu > 0 ∧ q.m_peakRate > 0 → item.GetSize ≤ min (q.m_ptokens + incP) q.m_mtu)) := by
    by_cases hpeak : q.m_mtu > 0 ∧ q.m_peakRate > 0
    · have hpe := computePtoks_eq q item.GetSize incP hq hsz hP hpeak
      rw [hbe, hpe]
      constructor
      · rintro ⟨h1, h2⟩
        exact ⟨by omega, fun _ => by omega⟩
      · rintro ⟨h1, h2⟩
        have h3 := h2 hpeak
        exact ⟨by omega, by omega⟩
    · rw [hbe, computePtoks_disabled q _ incP hpeak]
      constructor
      · rintro ⟨h1, _⟩
        exact ⟨by omega, fun h => absurd h hpeak⟩
      · rintro ⟨h1, _⟩
        exact ⟨by omega, le_refl 0⟩
  rw [← hsuff, ← hrel]
  rcases Bool.eq_false_or_eq_true (releaseTest (computeBtoks q (item.GetSize : Int) incB)
      (computePtoks q (item.GetSize : Int) incP)) with hr | hr
  · rw [DoDequeue_release q sim incB incP item rest hhead hr]
    simp [hr]
  · have hblk := DoDequeue_blocked q sim incB incP item hpeek hr
    have hnone : (DoDequeue q sim incB incP).1 = none := by
      rw [hblk]
      split_ifs <;> rfl
    rw [hnone, hr]
    simp

/-- C7 (as amended): when `DoDequeue` finds a head packet, the packet is blocked (the release
test fails, no packet is returned) exactly when at least one of the two computed balances is
less than zero; with the peak bucket disabled `ptoks` is 0, so a packet is then blocked
exactly when `btoks < 0`. -/
theorem blocked_iff_some_balance_negative (q : TbfQueueDisc) (sim : Simulator)
    (incB incP : Nat) (item : QueueDiscItem) (hq : WellFormed q)
    (hB : incB < 4611686018427387904) (hP : incP < 4611686018427387904)
    (hpeek : DoPeek q = some item) :
    (releaseTest (computeBtoks q (item.GetSize : Int) incB)
        (computePtoks q (item.GetSize : Int) incP) = false ↔
      (computeBtoks q (item.GetSize : Int) incB < 0 ∨
        computePtoks q (item.GetSize : Int) incP < 0)) ∧
    ((DoDequeue q sim incB incP).1 = none ↔
      (computeBtoks q (item.GetSize : Int) incB < 0 ∨
        computePtoks q (item.GetSize : Int) incP < 0)) ∧
    (¬ (q.m_mtu > 0 ∧ q.m_peakRate > 0) → computePtoks q (item.GetSize : Int) incP = 0) := by
  have hsz := getSize_lt item
  have hrel := releaseTest_computed q item.GetSize incB incP hq hsz hB hP
  obtain ⟨rest, hhead⟩ := (DoPeek_eq_some q item).1 hpeek
  have hfirst : releaseTest (computeBtoks q (item.GetSize : Int) incB)
        (computePtoks q (item.GetSize : Int) incP) = false ↔
      (computeBtoks q (item.GetSize : Int) incB < 0 ∨
        computePtoks q (item.GetSize : Int) incP < 0) := by
    rw [← Bool.not_eq_true, hrel]
    constructor
    · intro h
      by_contra hc
      exact h ⟨by omega, by omega⟩
    · rintro h ⟨h1, h2⟩
      omega
  refine ⟨hfirst, ?_, fun hpeak => computePtoks_disabled q _ incP hpeak⟩
  rw [← hfirst]
  rcases Bool.eq_false_or_eq_true (releaseTest (computeBtoks q (item.GetSize : Int) incB)
      (computePtoks q (item.GetSize : Int) incP)) with hr | hr
  · rw [DoDequeue_release q sim incB incP item rest hhead hr]
    simp [hr]
  · have hblk := DoDequeue_blocked q sim incB incP item hpeek hr
    have hnone : (DoDequeue q sim incB incP).1 = none := by
      rw [hblk]
      split_ifs <;> rfl
    rw [hnone, hr]
    simp

theorem release_iff_tokens_suffice_witness :
    WellFormed afterInit.disc ∧
    (GetInternalQueue afterInit.disc 0).packets = ⟨60⟩ :: [⟨60⟩] ∧
    ((0 ≤ or64 (-20) 0 ↔ 0 ≤ (-20 : Int) ∧ 0 ≤ (0 : Int)) ∧
    ((DoDequeue afterInit.disc afterInit.sim 0 0).1 = some ⟨60⟩ ↔
      (⟨60⟩ : QueueDiscItem).GetSize ≤ min (afterInit.disc.m_btokens + 0) afterInit.disc.m_burst ∧
      (afterInit.disc.m_mtu > 0 ∧ afterInit.disc.m_peakRate > 0 →
        (⟨60⟩ : QueueDiscItem).GetSize ≤
          min (afterInit.disc.m_ptokens + 0) afterInit.disc.m_mtu))) :=
  ⟨(reachable_tokens afterInit afterInit_reachable).1, by decide,
   release_iff_tokens_suffice (-20) 0 (by decide) (by decide) (by decide) (by decide)
     afterInit.disc afterInit.sim 0 0 ⟨60⟩ [⟨60⟩]
     (reachable_tokens afterInit afterInit_reachable).1 (by decide) (by decide) (by decide)⟩

/-- C7 (as stated) fails: after the first packet of `exampleRunning` was released, the second
one (60 bytes against 40 tokens) is blocked, with `btoks = -20 < 0` but `ptoks = 0`: the peak
bucket is disabled, and the two balances are not both less than zero. -/
theorem blocked_with_one_balance_nonnegative :
    DoPeek afterRelease.disc = some ⟨60⟩ ∧
    releaseTest (computeBtoks afterRelease.disc ((⟨60⟩ : QueueDiscItem).GetSize : Int) 0)
      (computePtoks afterRelease.disc ((⟨60⟩ : QueueDiscItem).GetSize : Int) 0) = false ∧
    (DoDequeue afterRelease.disc afterRelease.sim 0 0).1 = none ∧
    computeBtoks afterRelease.disc ((⟨60⟩ : QueueDiscItem).GetSize : Int) 0 = -20 ∧
    computePtoks afterRelease.disc ((⟨60⟩ : QueueDiscItem).GetSize : Int) 0 = 0 ∧
    ¬ (computeBtoks afterRelease.disc ((⟨60⟩ : QueueDiscItem).GetSize : Int) 0 < 0 ∧
        computePtoks afterRelease.disc ((⟨60⟩ : QueueDiscItem).GetSize : Int) 0 < 0) := by
  refine ⟨by decide, by decide, by decide, by decide, by decide, by decide⟩

theorem blocked_iff_some_balance_negative_witness :
    WellFormed afterRelease.disc ∧ DoPeek afterRelease.disc = some ⟨60⟩ ∧
    ((releaseTest (computeBtoks afterRelease.disc ((⟨60⟩ : QueueDiscItem).GetSize : Int) 0)
        (computePtoks afterRelease.disc ((⟨60⟩ : QueueDiscItem).GetSize : Int) 0) = false ↔
      (computeBtoks afterRelease.disc ((⟨60⟩ : QueueDiscItem).GetSize : Int) 0 < 0 ∨
        computePtoks afterRelease.disc ((⟨60⟩ : QueueDiscItem).GetSize : Int) 0 < 0)) ∧
    ((DoDequeue afterRelease.disc afterRelease.sim 0 0).1 = none ↔
      (computeBtoks afterRelease.disc ((⟨60⟩ : QueueDiscItem).GetSize : Int) 0 < 0 ∨
        computePtoks afterRelease.disc ((⟨60⟩ : QueueDiscItem).GetSize : Int) 0 < 0)) ∧
    (¬ (afterRelease.disc.m_mtu > 0 ∧ afterRelease.disc.m_peakRate > 0) →
      computePtoks afterRelease.disc ((⟨60⟩ : QueueDiscItem).GetSize : Int) 0 = 0)) :=
  ⟨(reachable_tokens afterRelease afterRelease_reachable).1, by decide,
   blocked_iff_some_balance_negative afterRelease.disc afterRelease.sim 0 0 ⟨60⟩
     (reachable_tokens afterRelease afterRelease_reachable).1 (by decide) (by decide)
     (by decide)⟩

/-- C8 fails on the code. The state `pacedDisc` is reachable and its configuration passes
`CheckConfig`; its head packet (10 bytes, below `m_burst = 100` and `m_mtu = 50`) is blocked
with `btoks = -5` and `ptoks = -10`. As `-btoks > -ptoks` is false, the delay is that of the
10 missing tokens of the second bucket at the peak rate, 1/10 s, in which the first bucket
gains 1/10 token only: at the wake-up the exact balance of the first bucket is `-49/10 < 0`
(the second is 0), and `DoDequeue` run at that time blocks the packet again. -/
theorem wakeup_before_enough_tokens :
    Reachable ⟨pacedDisc, pacedSim⟩ ∧
    (CheckConfig pacedDisc).1 = true ∧
    DoPeek pacedDisc = some ⟨10⟩ ∧
    (⟨10⟩ : QueueDiscItem).GetSize ≤ pacedDisc.m_burst ∧
    (⟨10⟩ : QueueDiscItem).GetSize ≤ pacedDisc.m_mtu ∧
    (DoDequeueNow pacedDisc pacedSim).1 = none ∧
    (DoDequeueNow pacedDisc pacedSim).2.2.pending = [⟨0, pacedSim.now + 1 / 10⟩] ∧
    exactBtoks pacedDisc 10 0 = -5 ∧
    exactPtoks pacedDisc 10 0 = -10 ∧
    exactBtoks pacedDisc 10 (1 / 10) = -49 / 10 ∧
    exactPtoks pacedDisc 10 (1 / 10) = 0 ∧
    (DoDequeueNow (DoDequeueNow pacedDisc pacedSim).2.1
      ⟨pacedSim.now + 1 / 10, 1, []⟩).1 = none := by
  have hi0 : tokenIncrement (pacedSim.Now - pacedDisc.m_timeCheckPoint) pacedDisc.m_rate = 0 := by
    unfold tokenIncrement
    apply roundNonneg_eq <;> norm_num [pacedSim, pacedDisc, Simulator.Now]
  have hi1 : tokenIncrement (pacedSim.Now - pacedDisc.m_timeCheckPoint) pacedDisc.m_peakRate = 0 := by
    unfold tokenIncrement
    apply roundNonneg_eq <;> norm_num [pacedSim, pacedDisc, Simulator.Now]
  have hnow : DoDequeueNow pacedDisc pacedSim = DoDequeue pacedDisc pacedSim 0 0 := by
    unfold DoDequeueNow
    simp only [hi0, hi1]
  have hb : computeBtoks pacedDisc ((⟨10⟩ : QueueDiscItem).GetSize : Int) 0 = -5 := by decide
  have hp : computePtoks pacedDisc ((⟨10⟩ : QueueDiscItem).GetSize : Int) 0 = -10 := by decide
  have hd : requiredDelayTime pacedDisc (-5) (-10) = 1 / 10 := by
    norm_num [requiredDelayTime, toInt64, CalculateBytesTxTime, pacedDisc]
  have hexp : pacedSim.IsExpired pacedDisc.m_id = true := by decide
  have hblk : DoDequeue pacedDisc pacedSim 0 0 =
      (none, { pacedDisc with m_id := some 0 }, ⟨pacedSim.now, 1, [⟨0, pacedSim.now + 1 / 10⟩]⟩) := by
    rw [DoDequeue_blocked pacedDisc pacedSim 0 0 ⟨10⟩ (by decide) (by decide), hb, hp, hd, hexp]
    simp [Simulator.Schedule, pacedSim]
  have hj0 : tokenIncrement ((pacedSim.now + 1 / 10) - pacedDisc.m_timeCheckPoint)
      pacedDisc.m_rate = 0 := by
    unfold tokenIncrement
    apply roundNonneg_eq <;> norm_num [pacedSim, pacedDisc]
  have hj1 : tokenIncrement ((pacedSim.now + 1 / 10) - pacedDisc.m_timeCheckPoint)
      pacedDisc.m_peakRate = 10 := by
    unfold tokenIncrement
    apply roundNonneg_eq <;> norm_num [pacedSim, pacedDisc]
  refine ⟨pacedDisc_reachable, by decide, by decide, by decide, by decide,
    ?_, ?_, ?_, ?_, ?_, ?_, ?_⟩
  · rw [hnow, hblk]
  · rw [hnow, hblk]
  · norm_num [exactBtoks, pacedDisc]
  · norm_num [exactPtoks, pacedDisc]
  · norm_num [exactBtoks, pacedDisc]
  · norm_num [exactPtoks, pacedDisc]
  · rw [hnow, hblk]
    unfold DoDequeueNow
    simp only [Simulator.Now]
    rw [hj0, hj1]
    decide

end Tbf
